import Mathlib

/-!
# Browser event logger (`src/app.js`)

A shallow embedding of the script's functions (`getUid`, `getSavedGasUrl`,
`isValidGasUrl`, `setStatus`, `saveUrl`, `sendLogSimple`) as pure functions on
an explicit `World` value.

* `localStorage` is an association list of string keys and string values.
* The `#status` element is a record of its two written properties.
* Calls to `crypto.getRandomValues`, `localStorage.setItem`, `setStatus` and
  `fetch` are counted (or logged) in the `World`, so "does not call" and
  "exactly one" are statements about those fields.
* What the script asks of the browser and cannot be computed here sits in
  `Platform`: the URL parser behind `new URL`, `String.prototype.toLowerCase`,
  and the digits `Number.prototype.toString(36)` prints above `2 ^ 53`, which
  ECMA-262 leaves to the implementation.
* The built-ins that can be computed are written out from ECMA-262:
  `trim`, `endsWith`, `padStart`, `parseInt(s, 16)` with its rounding to the
  nearest Number, `toString(36)` below `2 ^ 53`, `URLSearchParams.set`,
  `Number::toString` and `JSON.stringify` on plain data.
* The outcome of the random source, of the clock and of the network are
  arguments of the call that reads them.
* A JavaScript string is a `String`; lone surrogates are not represented.

The DOM elements `#status` and `#gasUrl` are taken to exist and `localStorage`
to be usable, as the script itself assumes.  One call runs to completion
before the next starts.
-/

namespace App

/-! ## Strings -/

/-- `String.prototype.endsWith`. -/
def endsWith (s suffix : String) : Bool :=
  suffix.data.isSuffixOf s.data

/-- ECMA-262 `WhiteSpace` and `LineTerminator` code points, the ones
`String.prototype.trim` removes. -/
def isJsWhiteSpace (c : Char) : Bool :=
  let n := c.toNat
  n = 0x9 || n = 0xA || n = 0xB || n = 0xC || n = 0xD || n = 0x20 || n = 0xA0 ||
  n = 0x1680 || (0x2000 ≤ n && n ≤ 0x200A) || n = 0x2028 || n = 0x2029 ||
  n = 0x202F || n = 0x205F || n = 0x3000 || n = 0xFEFF

/-- `String.prototype.trim`. -/
def trim (s : String) : String :=
  String.mk ((s.data.dropWhile isJsWhiteSpace).reverse.dropWhile isJsWhiteSpace).reverse

/-! ## The browser -/

/-- The two components of a parsed URL that the script reads. -/
structure URL where
  scheme : String
  pathname : String
deriving DecidableEq, Repr

/-- The `protocol` getter: the scheme followed by a colon. -/
def URL.protocol (u : URL) : String :=
  u.scheme ++ ":"

/-- Browser behaviour the script relies on. -/
structure Platform where
  /-- The constructor `new URL(s)`; `none` when it throws `TypeError`. -/
  parseURL : String → Option URL
  /-- The method `String.prototype.toLowerCase`. -/
  toLowerCase : String → String
  /-- Text of `x.toString(36)` for an integer-valued Number `x ≥ 2 ^ 53`. -/
  radix36Large : Nat → String
  /-- The empty string is not a URL (WHATWG URL, no base: missing scheme). -/
  parseURL_empty : parseURL "" = none

/-! ## localStorage -/

/-- Contents of `localStorage`, in key order. -/
abbrev Storage := List (String × String)

/-- `localStorage.getItem(key)`; `none` is `null`. -/
def getItem : Storage → String → Option String
  | [], _ => none
  | (k, v) :: rest, key => if k = key then some v else getItem rest key

/-- `localStorage.setItem(key, value)` on the contents. -/
def setItem : Storage → String → String → Storage
  | [], key, value => [(key, value)]
  | (k, v) :: rest, key, value =>
    if k = key then (k, value) :: rest else (k, v) :: setItem rest key value

/-! ## World -/

/-- The written properties of the `#status` element. -/
structure StatusEl where
  className : String
  textContent : String
deriving DecidableEq, Repr

/-- A `fetch` call as issued by the script. -/
structure Request where
  url : String
  method : String
  headers : List (String × String)
  body : List (String × String)
deriving DecidableEq, Repr

/-- Everything the script reads or writes. -/
structure World where
  storage : Storage
  /-- Number of `localStorage.setItem` calls so far. -/
  setItemCalls : Nat
  status : StatusEl
  /-- Number of `setStatus` calls so far. -/
  statusCalls : Nat
  /-- The `fetch` calls so far, oldest first. -/
  requests : List Request
  /-- Number of `crypto.getRandomValues` calls so far. -/
  randomCalls : Nat
deriving DecidableEq, Repr

/-- `localStorage.setItem(key, value)`. -/
def World.setItem (w : World) (key value : String) : World :=
  { w with storage := App.setItem w.storage key value, setItemCalls := w.setItemCalls + 1 }

/-! ## Numbers as the script uses them -/

/-- The digit character of `d < 36` in the radixes up to 36: `0`-`9`, `a`-`z`. -/
def radixDigit (d : Nat) : Char :=
  if d < 10 then Char.ofNat (48 + d) else Char.ofNat (87 + d)

/-- Digits of `n` in `base`, most significant first, in front of `acc`. -/
def toRadixCore (base : Nat) : Nat → Nat → List Char → List Char
  | 0, _, acc => acc
  | fuel + 1, n, acc =>
    let acc := radixDigit (n % base) :: acc
    if n / base = 0 then acc else toRadixCore base fuel (n / base) acc

/-- The text of the natural number `n` in `base` (2 to 36). -/
def toRadix (base n : Nat) : List Char :=
  toRadixCore base (n + 1) n []

/-- The value of a radix-16 digit, `none` for any other character. -/
def hexValue (c : Char) : Option Nat :=
  let n := c.toNat
  if 48 ≤ n ∧ n ≤ 57 then some (n - 48)
  else if 97 ≤ n ∧ n ≤ 102 then some (n - 87)
  else if 65 ≤ n ∧ n ≤ 70 then some (n - 55)
  else none

/-- An integer-valued Number, as `parseInt` returns: `NaN`, an infinity, or a
sign and a magnitude that is exactly representable. -/
inductive IntNumber where
  | nan
  | infinity (negative : Bool)
  | int (negative : Bool) (magnitude : Nat)
deriving DecidableEq, Repr

/-- Number of binary digits of `n`, counted with `fuel` halvings. -/
def bitLengthCore : Nat → Nat → Nat
  | 0, _ => 0
  | fuel + 1, n => if n = 0 then 0 else bitLengthCore fuel (n / 2) + 1

/-- Number of binary digits of `n` (`0` for `0`). -/
def bitLength (n : Nat) : Nat :=
  bitLengthCore n n

/-- The Number nearest to the integer `n` (IEEE 754 binary64, ties to even),
`none` when that is infinity. -/
def roundToDouble (n : Nat) : Option Nat :=
  if n < 2 ^ 53 then some n
  else
    let e := bitLength n - 53
    let q := n / 2 ^ e
    let r := n % 2 ^ e
    let half := 2 ^ (e - 1)
    let q := if r < half then q else if half < r then q + 1 else if q % 2 = 0 then q else q + 1
    if bitLength (q * 2 ^ e) ≤ 1024 then some (q * 2 ^ e) else none

/-- Value of a string of radix-16 digits read left to right from `acc`. -/
def hexMathInt (acc : Nat) : List Char → Nat
  | [] => acc
  | c :: cs => hexMathInt (16 * acc + (hexValue c).getD 0) cs

/-- `parseInt(s, 16)`. -/
def parseInt16 (s : String) : IntNumber :=
  let t := s.data.dropWhile isJsWhiteSpace
  let negative := t.head? = some '-'
  let t := if t.head? = some '-' ∨ t.head? = some '+' then t.tail else t
  let t :=
    match t with
    | '0' :: 'x' :: rest => rest
    | '0' :: 'X' :: rest => rest
    | _ => t
  let z := t.takeWhile (fun c => (hexValue c).isSome)
  if z = [] then IntNumber.nan
  else
    match roundToDouble (hexMathInt 0 z) with
    | some m => IntNumber.int negative m
    | none => IntNumber.infinity negative

/-- `x.toString(36)` for the Numbers `parseInt` returns.  Below `2 ^ 53` every
digit is exact; above, the digits are the implementation's. -/
def toString36 (P : Platform) : IntNumber → String
  | .nan => "NaN"
  | .infinity negative => if negative then "-Infinity" else "Infinity"
  | .int negative m =>
    let digits := if m < 2 ^ 53 then String.mk (toRadix 36 m) else P.radix36Large m
    if negative ∧ m ≠ 0 then "-" ++ digits else digits

/-- `String.prototype.padStart(n, fill)` with a one-character `fill`. -/
def padStart (n : Nat) (fill : Char) (s : List Char) : List Char :=
  List.replicate (n - s.length) fill ++ s

/-- The sixteen values that `crypto.getRandomValues` writes into the array. -/
def RandomBytes := { bs : List (Fin 256) // bs.length = 16 }

/-- The text `b.toString(16).padStart(2, "0")` of one byte. -/
def byteHex (b : Fin 256) : List Char :=
  padStart 2 '0' (toRadix 16 b.val)

/-- The hex text of the bytes: `[...bytes].map(...).join("")`. -/
def hexOfBytes (bs : List (Fin 256)) : String :=
  String.mk (bs.flatMap byteHex)

/-- The identifier built from fresh random bytes (lines 13 and 14). -/
def newUid (P : Platform) (rnd : RandomBytes) : String :=
  let uid := hexOfBytes rnd.val
  toString36 P (parseInt16 (String.mk (uid.data.take 15))) ++ "-" ++
    toString36 P (parseInt16 (String.mk (uid.data.drop 15)))

/-- `getUid()`: the identifier and the world after the call.  `rnd` is what the
random source yields if it is called. -/
def getUid (P : Platform) (w : World) (rnd : RandomBytes) : String × World :=
  let generate : String × World :=
    let uid := newUid P rnd
    (uid, { w with randomCalls := w.randomCalls + 1 }.setItem "uid" uid)
  match getItem w.storage "uid" with
  | some uid => if uid.length > 0 then (uid, w) else generate
  | none => generate

/-! ## app.js: endpoint -/

/-- `getSavedGasUrl()`. -/
def getSavedGasUrl (w : World) : Option String :=
  getItem w.storage "gas_url"

/-- `isValidGasUrl(url)`: the `catch` branch is the `none` case. -/
def isValidGasUrl (P : Platform) (url : String) : Bool :=
  match P.parseURL url with
  | some u => u.protocol == "https:" && endsWith u.pathname "/exec"
  | none => false

/-- `setStatus(msg, type)`. -/
def setStatus (w : World) (msg type : String) : World :=
  { w with
    status :=
      { className := if type = "ok" then "ok" else if type = "err" then "err" else ""
        textContent := msg }
    statusCalls := w.statusCalls + 1 }

/-- `saveUrl()`, with `inputValue` the `value` of the `#gasUrl` input. -/
def saveUrl (P : Platform) (w : World) (inputValue : String) : World :=
  let url := trim inputValue
  if url = "" then setStatus w "Missing Web App URL" "err"
  else if !isValidGasUrl P url then setStatus w "Invalid URL (must end with /exec)" "err"
  else setStatus (w.setItem "gas_url" url) "Saved" "ok"

/-! ## JavaScript values and `JSON.stringify` -/

/-- A Number by its shortest decimal form, the `n`, `k`, `s` of ECMA-262
`Number::toString`: a finite non-zero value is `s * 10 ^ (n - k)` with `s` the
`k` digits `lead + 1` followed by `rest`. -/
inductive JsNumber where
  | nan
  | infinity (negative : Bool)
  | zero (negative : Bool)
  | finite (negative : Bool) (lead : Fin 9) (rest : List (Fin 10)) (n : Int)
deriving DecidableEq, Repr

/-- ECMA-262 `Number::toString(x, 10)`. -/
def numberToString : JsNumber → List Char
  | .nan => ['N', 'a', 'N']
  | .infinity negative =>
    (if negative then ['-'] else []) ++ ['I', 'n', 'f', 'i', 'n', 'i', 't', 'y']
  | .zero _ => ['0']
  | .finite negative lead rest n =>
    let ds := radixDigit (lead.val + 1) :: rest.map (fun d => radixDigit d.val)
    let k : Int := ds.length
    let text :=
      if k ≤ n ∧ n ≤ 21 then ds ++ List.replicate (n - k).toNat '0'
      else if 0 < n ∧ n ≤ 21 then ds.take n.toNat ++ '.' :: ds.drop n.toNat
      else if -6 < n ∧ n ≤ 0 then '0' :: '.' :: List.replicate (-n).toNat '0' ++ ds
      else
        let exponentSign := if n < 0 then '-' else '+'
        let exponent := toRadix 10 (n - 1).natAbs
        if ds.length = 1 then ds ++ 'e' :: exponentSign :: exponent
        else ds.take 1 ++ '.' :: ds.drop 1 ++ 'e' :: exponentSign :: exponent
    if negative then '-' :: text else text

/-- Plain JavaScript data: primitives, arrays and objects with own enumerable
string-keyed data properties in enumeration order (no `toJSON`, no getters, no
cycles). -/
inductive JsValue where
  | undefined
  | null
  | boolean (b : Bool)
  | number (x : JsNumber)
  | string (s : String)
  | bigint (i : Int)
  | symbol
  | function
  | array (items : List JsValue)
  | object (props : List (String × JsValue))

/-- An exception thrown by the script's calls. -/
inductive JsError where
  | typeError
deriving DecidableEq, Repr

/-- ECMA-262 `QuoteJSONString`, one character. -/
def quoteJSONChar (c : Char) : List Char :=
  if c = '\x08' then ['\\', 'b']
  else if c = '\t' then ['\\', 't']
  else if c = '\n' then ['\\', 'n']
  else if c = '\x0c' then ['\\', 'f']
  else if c = '\r' then ['\\', 'r']
  else if c = '"' then ['\\', '"']
  else if c = '\\' then ['\\', '\\']
  else if c.toNat < 0x20 then '\\' :: 'u' :: padStart 4 '0' (toRadix 16 c.toNat)
  else [c]

/-- ECMA-262 `QuoteJSONString`. -/
def quoteJSONString (s : String) : List Char :=
  '"' :: s.data.flatMap quoteJSONChar ++ ['"']

/-- The texts joined with commas. -/
def joinComma : List (List Char) → List Char
  | [] => []
  | [x] => x
  | x :: y :: rest => x ++ ',' :: joinComma (y :: rest)

mutual
/-- ECMA-262 `SerializeJSONProperty` on a value: `none` is `undefined`, an
error is a thrown exception. -/
def serializeJSONProperty : JsValue → Except JsError (Option (List Char))
  | .undefined => .ok none
  | .symbol => .ok none
  | .function => .ok none
  | .null => .ok (some ['n', 'u', 'l', 'l'])
  | .boolean b => .ok (some (if b then ['t', 'r', 'u', 'e'] else ['f', 'a', 'l', 's', 'e']))
  | .string s => .ok (some (quoteJSONString s))
  | .number x =>
    match x with
    | .nan => .ok (some ['n', 'u', 'l', 'l'])
    | .infinity _ => .ok (some ['n', 'u', 'l', 'l'])
    | x => .ok (some (numberToString x))
  | .bigint _ => .error .typeError
  | .array items =>
    match serializeJSONArray items with
    | .error e => .error e
    | .ok parts => .ok (some ('[' :: joinComma parts ++ [']']))
  | .object props =>
    match serializeJSONObject props with
    | .error e => .error e
    | .ok parts => .ok (some ('\x7b' :: joinComma parts ++ ['\x7d']))
/-- The element texts of `SerializeJSONArray`: `undefined` is written `null`. -/
def serializeJSONArray : List JsValue → Except JsError (List (List Char))
  | [] => .ok []
  | v :: vs =>
    match serializeJSONProperty v with
    | .error e => .error e
    | .ok text =>
      match serializeJSONArray vs with
      | .error e => .error e
      | .ok parts => .ok (text.getD ['n', 'u', 'l', 'l'] :: parts)
/-- The member texts of `SerializeJSONObject`: a property whose value is
`undefined` is left out. -/
def serializeJSONObject : List (String × JsValue) → Except JsError (List (List Char))
  | [] => .ok []
  | (key, v) :: ps =>
    match serializeJSONProperty v with
    | .error e => .error e
    | .ok none => serializeJSONObject ps
    | .ok (some text) =>
      match serializeJSONObject ps with
      | .error e => .error e
      | .ok parts => .ok ((quoteJSONString key ++ ':' :: text) :: parts)
end

/-- `JSON.stringify(value)`. -/
def jsonStringify (v : JsValue) : Except JsError (Option String) :=
  match serializeJSONProperty v with
  | .error e => .error e
  | .ok text => .ok (text.map String.mk)

mutual
/-- Whether a BigInt occurs in the value, at any depth. -/
def hasBigInt : JsValue → Bool
  | .bigint _ => true
  | .array items => anyBigInt items
  | .object props => anyPropBigInt props
  | _ => false
/-- Whether a BigInt occurs in one of the values. -/
def anyBigInt : List JsValue → Bool
  | [] => false
  | v :: vs => hasBigInt v || anyBigInt vs
/-- Whether a BigInt occurs in one of the property values. -/
def anyPropBigInt : List (String × JsValue) → Bool
  | [] => false
  | (_, v) :: ps => hasBigInt v || anyPropBigInt ps
end

/-! ## The JSON grammar (ECMA-404, as laid out on json.org) -/

/-- The rule `ws`: spaces, line feeds, carriage returns and tabs. -/
def JsonWs (s : List Char) : Prop :=
  ∀ c ∈ s, c = ' ' ∨ c = '\n' ∨ c = '\r' ∨ c = '\t'

/-- The rule `digit`. -/
def isJsonDigit (c : Char) : Bool :=
  48 ≤ c.toNat && c.toNat ≤ 57

/-- The rule `onenine`. -/
def isJsonOneNine (c : Char) : Bool :=
  49 ≤ c.toNat && c.toNat ≤ 57

/-- The rule `hex`. -/
def isJsonHex (c : Char) : Bool :=
  (hexValue c).isSome

/-- The rule `digits`: one digit or more. -/
def JsonDigits (s : List Char) : Prop :=
  s ≠ [] ∧ ∀ c ∈ s, isJsonDigit c = true

/-- The rule `integer`. -/
inductive JsonInteger : List Char → Prop
  | digit (d : Char) : isJsonDigit d = true → JsonInteger [d]
  | digits (d : Char) (ds : List Char) :
    isJsonOneNine d = true → JsonDigits ds → JsonInteger (d :: ds)
  | negDigit (d : Char) : isJsonDigit d = true → JsonInteger ['-', d]
  | negDigits (d : Char) (ds : List Char) :
    isJsonOneNine d = true → JsonDigits ds → JsonInteger ('-' :: d :: ds)

/-- The rule `fraction`. -/
inductive JsonFraction : List Char → Prop
  | none : JsonFraction []
  | digits (ds : List Char) : JsonDigits ds → JsonFraction ('.' :: ds)

/-- The rule `sign`. -/
inductive JsonSign : List Char → Prop
  | none : JsonSign []
  | plus : JsonSign ['+']
  | minus : JsonSign ['-']

/-- The rule `exponent`. -/
inductive JsonExponent : List Char → Prop
  | none : JsonExponent []
  | upper (s ds : List Char) : JsonSign s → JsonDigits ds → JsonExponent ('E' :: s ++ ds)
  | lower (s ds : List Char) : JsonSign s → JsonDigits ds → JsonExponent ('e' :: s ++ ds)

/-- The rule `number`. -/
inductive JsonNumber : List Char → Prop
  | mk (i f e : List Char) :
    JsonInteger i → JsonFraction f → JsonExponent e → JsonNumber (i ++ f ++ e)

/-- The rule `characters`. -/
inductive JsonCharacters : List Char → Prop
  | nil : JsonCharacters []
  | char (c : Char) (cs : List Char) :
    0x20 ≤ c.toNat → c ≠ '"' → c ≠ '\\' → JsonCharacters cs → JsonCharacters (c :: cs)
  | escape (e : Char) (cs : List Char) :
    e ∈ ['"', '\\', '/', 'b', 'f', 'n', 'r', 't'] → JsonCharacters cs →
    JsonCharacters ('\\' :: e :: cs)
  | unicode (a b c d : Char) (cs : List Char) :
    isJsonHex a = true → isJsonHex b = true → isJsonHex c = true → isJsonHex d = true →
    JsonCharacters cs → JsonCharacters ('\\' :: 'u' :: a :: b :: c :: d :: cs)

/-- The rule `string`. -/
inductive JsonString : List Char → Prop
  | mk (cs : List Char) : JsonCharacters cs → JsonString ('"' :: cs ++ ['"'])

mutual
/-- The rule `value`. -/
inductive JsonValue : List Char → Prop
  | emptyObject (ws : List Char) : JsonWs ws → JsonValue ('\x7b' :: ws ++ ['\x7d'])
  | object (ms : List Char) : JsonMembers ms → JsonValue ('\x7b' :: ms ++ ['\x7d'])
  | emptyArray (ws : List Char) : JsonWs ws → JsonValue ('[' :: ws ++ [']'])
  | array (es : List Char) : JsonElements es → JsonValue ('[' :: es ++ [']'])
  | string (s : List Char) : JsonString s → JsonValue s
  | number (s : List Char) : JsonNumber s → JsonValue s
  | litTrue : JsonValue ['t', 'r', 'u', 'e']
  | litFalse : JsonValue ['f', 'a', 'l', 's', 'e']
  | litNull : JsonValue ['n', 'u', 'l', 'l']
/-- The rule `element`: a value between optional white space. -/
inductive JsonElement : List Char → Prop
  | mk (a v b : List Char) : JsonWs a → JsonValue v → JsonWs b → JsonElement (a ++ v ++ b)
/-- The rule `elements`. -/
inductive JsonElements : List Char → Prop
  | one (e : List Char) : JsonElement e → JsonElements e
  | more (e es : List Char) : JsonElement e → JsonElements es → JsonElements (e ++ ',' :: es)
/-- The rule `member`. -/
inductive JsonMember : List Char → Prop
  | mk (a k b e : List Char) :
    JsonWs a → JsonString k → JsonWs b → JsonElement e → JsonMember (a ++ k ++ b ++ ':' :: e)
/-- The rule `members`. -/
inductive JsonMembers : List Char → Prop
  | one (m : List Char) : JsonMember m → JsonMembers m
  | more (m ms : List Char) : JsonMember m → JsonMembers ms → JsonMembers (m ++ ',' :: ms)
end

/-- A JSON text: the rule `json`, one element. -/
def IsJsonText (s : String) : Prop :=
  JsonElement s.data

/-! ## app.js: sending -/

/-- The argument of `sendLogSimple`, by its JSDoc type
`{event:string, variant?:string, meta?:Record<string,any>}`. -/
structure Payload where
  event : String
  variant : Option String
  meta : Option (List (String × JsValue))

/-- What `await fetch(...)` does: it yields a response with a status code, or
it throws. -/
inductive FetchOutcome where
  | response (status : Nat)
  | failure
deriving DecidableEq, Repr

/-- The `ok` getter of a response. -/
def FetchOutcome.responseOk (status : Nat) : Bool :=
  200 ≤ status && status ≤ 299

/-- How the promise of an `async` call settles. -/
inductive Settled where
  | fulfilled
  | rejected (e : JsError)
deriving DecidableEq, Repr

/-- `URLSearchParams.prototype.set(name, value)`. -/
def paramsSet : List (String × String) → String → String → List (String × String)
  | [], name, value => [(name, value)]
  | (k, v) :: rest, name, value =>
    if k = name then (k, value) :: rest.filter (fun p => p.1 ≠ name)
    else (k, v) :: paramsSet rest name value

/-- `sendLogSimple(payload)`: how its promise settles and the world after.
`rnd` is what the random source yields if called, `now` is `Date.now()`, `net`
is what the `fetch` call does.  With `event` a string, `payload.event || ""`
is `payload.event`; an object `meta` is truthy, so `payload.meta || {}` is the
empty object only when `meta` is absent. -/
def sendLogSimple (P : Platform) (w : World) (payload : Payload) (rnd : RandomBytes)
    (now : Int) (net : FetchOutcome) : Settled × World :=
  match getSavedGasUrl w with
  | none => (.fulfilled, setStatus w "Missing Web App URL" "err")
  | some gasUrl =>
    if gasUrl = "" then (.fulfilled, setStatus w "Missing Web App URL" "err")
    else if !isValidGasUrl P gasUrl then (.fulfilled, setStatus w "Invalid URL" "err")
    else
      let body : List (String × String) := []
      let body := paramsSet body "event" (P.toLowerCase payload.event)
      let body := paramsSet body "variant" (payload.variant.getD "")
      let (uid, w) := getUid P w rnd
      let body := paramsSet body "userId" uid
      let body := paramsSet body "ts" (toString now)
      match jsonStringify (.object (payload.meta.getD [])) with
      | .error e => (.rejected e, w)
      | .ok text =>
        let body := paramsSet body "meta" (text.getD "undefined")
        let w := { w with requests := w.requests ++ [⟨gasUrl, "POST", [], body⟩] }
        match net with
        | .failure => (.fulfilled, setStatus w "Network error" "err")
        | .response status =>
          if !FetchOutcome.responseOk status then
            (.fulfilled, setStatus w ("HTTP " ++ toString status) "err")
          else (.fulfilled, setStatus w "Logged" "ok")

/-- One call from the page. -/
inductive Op where
  | save (inputValue : String)
  | send (payload : Payload) (rnd : RandomBytes) (now : Int) (net : FetchOutcome)
  | uid (rnd : RandomBytes)

/-- The world after one call. -/
def step (P : Platform) (w : World) : Op → World
  | .save inputValue => saveUrl P w inputValue
  | .send payload rnd now net => (sendLogSimple P w payload rnd now net).2
  | .uid rnd => (getUid P w rnd).2

/-- The world after a sequence of calls. -/
def run (P : Platform) (w : World) (ops : List Op) : World :=
  ops.foldl (step P) w

/-! ## A concrete platform -/

/-- Characters the sample parser accepts after the scheme. -/
def isPlainUrlChar (c : Char) : Bool :=
  c.isAlphanum || c = '.' || c = '-' || c = '_' || c = '/'

/-- A small URL parser for strings of the shape `scheme://host/path` made of
letters, digits and `. - _ /`; everything else is rejected.  It serves to
instantiate `Platform`. -/
def sampleParseURL (s : String) : Option URL :=
  let scheme := s.data.takeWhile Char.isAlphanum
  match s.data.dropWhile Char.isAlphanum with
  | ':' :: '/' :: '/' :: rest =>
    let host := rest.takeWhile (fun c => c != '/')
    let path := rest.dropWhile (fun c => c != '/')
    if scheme.head?.any Char.isAlpha && !host.isEmpty && rest.all isPlainUrlChar then
      some
        { scheme := String.mk (scheme.map Char.toLower)
          pathname := if path.isEmpty then "/" else String.mk path }
    else none
  | _ => none

/-- ASCII lower-casing. -/
def asciiLower (s : String) : String :=
  String.mk (s.data.map Char.toLower)

/-- A platform: the sample parser, ASCII lower-casing, exact radix-36 digits. -/
def samplePlatform : Platform where
  parseURL := sampleParseURL
  toLowerCase := asciiLower
  radix36Large := fun n => String.mk (toRadix 36 n)
  parseURL_empty := by decide

/-- The stored endpoint is absent or is accepted by `isValidGasUrl`. -/
def storedEndpointOk (P : Platform) (w : World) : Bool :=
  match getSavedGasUrl w with
  | none => true
  | some url => isValidGasUrl P url

/-- The value of a digit character of `radixDigit`. -/
def digitValue (c : Char) : Nat :=
  if c.toNat ≤ 57 then c.toNat - 48 else c.toNat - 87

/-- The number a digit text denotes in `base`, continuing from `init`. -/
def radixValue (base init : Nat) (l : List Char) : Nat :=
  l.foldl (fun acc c => base * acc + digitValue c) init

/-- A character of `[0-9a-f]`. -/
def isLowerHex (c : Char) : Bool :=
  (48 ≤ c.toNat && c.toNat ≤ 57) || (97 ≤ c.toNat && c.toNat ≤ 102)

/-- A character of `[0-9a-z]`. -/
def isBase36Char (c : Char) : Bool :=
  (48 ≤ c.toNat && c.toNat ≤ 57) || (97 ≤ c.toNat && c.toNat ≤ 122)

/-- A match of `[0-9a-z]+`. -/
def isBase36Text (s : List Char) : Bool :=
  !s.isEmpty && s.all isBase36Char

/-- A match of `^[0-9a-z]+-[0-9a-z]+$`: no character of the first group is a
hyphen, so the first hyphen ends it. -/
def matchesUidPattern (s : String) : Bool :=
  match s.data.dropWhile (fun c => c != '-') with
  | '-' :: rest => isBase36Text (s.data.takeWhile (fun c => c != '-')) && isBase36Text rest
  | _ => false

/-- Sample random bytes: the hex text is fifteen digits of value 1, then
seventeen digits of value 2. -/
def sampleBytes : RandomBytes :=
  ⟨[0, 0, 0, 0, 0, 0, 0, 16, 0, 0, 0, 0, 0, 0, 0, 2], rfl⟩

/-- A payload as the page's first button sends it. -/
def samplePayload : Payload :=
  ⟨"CTA_Click", some "A", some [("page", .string "/"), ("n", .number (.finite false 0 [5] 1))]⟩

/-! ## Storage and string lemmas -/

theorem getItem_setItem_same (st : Storage) (k v : String) :
    getItem (setItem st k v) k = some v := by
  induction st with
  | nil => simp [setItem, getItem]
  | cons p rest ih =>
    obtain ⟨k0, v0⟩ := p
    by_cases h : k0 = k
    · simp [setItem, getItem, h]
    · simp [setItem, getItem, h, ih]

theorem getItem_setItem_other (st : Storage) (k k' v : String) (h : k' ≠ k) :
    getItem (setItem st k v) k' = getItem st k' := by
  induction st with
  | nil => simp [setItem, getItem, Ne.symm h]
  | cons p rest ih =>
    obtain ⟨k0, v0⟩ := p
    by_cases h0 : k0 = k
    · subst h0
      simp [setItem, getItem, Ne.symm h]
    · simp [setItem, getItem, h0, ih]

theorem length_pos_iff_ne_empty (s : String) : s.length > 0 ↔ s ≠ "" := by
  constructor
  · intro h he
    subst he
    simp at h
  · intro h
    have hd : s.data ≠ [] := by
      intro hd
      exact h (String.ext hd)
    exact List.length_pos.mpr hd

theorem protocol_https_iff (u : URL) : (u.protocol == "https:") = true ↔ u.scheme = "https" := by
  simp only [beq_iff_eq, URL.protocol]
  constructor
  · intro h
    have hd := congrArg String.data h
    have hd2 : u.scheme.data ++ [':'] = "https".data ++ [':'] := by simpa using hd
    exact String.ext ((List.append_left_inj _).mp hd2)
  · intro h
    rw [h]
    rfl

theorem endsWith_iff (s suffix : String) :
    endsWith s suffix = true ↔ ∃ pre : String, s = pre ++ suffix := by
  simp only [endsWith, List.isSuffixOf_iff_suffix]
  constructor
  · rintro ⟨pre, h⟩
    exact ⟨String.mk pre, String.ext (by simpa using h.symm)⟩
  · rintro ⟨pre, h⟩
    exact ⟨pre.data, by rw [h]; simp⟩

theorem isValidGasUrl_eq_true_iff (P : Platform) (url : String) :
    isValidGasUrl P url = true ↔
      ∃ u, P.parseURL url = some u ∧ u.scheme = "https" ∧
        ∃ pre : String, u.pathname = pre ++ "/exec" := by
  unfold isValidGasUrl
  cases h : P.parseURL url with
  | none => simp
  | some u =>
    simp only [Bool.and_eq_true, protocol_https_iff, endsWith_iff, Option.some.injEq]
    constructor
    · rintro ⟨h1, h2⟩
      exact ⟨u, rfl, h1, h2⟩
    · rintro ⟨u', rfl, h1, h2⟩
      exact ⟨h1, h2⟩

theorem isValidGasUrl_of_parse (P : Platform) (url : String) (u : URL)
    (h : P.parseURL url = some u) :
    isValidGasUrl P url = (u.protocol == "https:" && endsWith u.pathname "/exec") := by
  simp [isValidGasUrl, h]

theorem isValidGasUrl_empty (P : Platform) : isValidGasUrl P "" = false := by
  simp [isValidGasUrl, P.parseURL_empty]

/-! ## Endpoint validation and saving -/

/-- C1: `isValidGasUrl(url)` is true exactly when `url` parses as a URL whose
scheme is `https` and whose path ends with `/exec`; a string that does not
parse gives false (the function is total: it never throws).  With the parser
results the URL Standard gives for the four sample strings, the first is valid
and the other three are not. -/
theorem isValidGasUrl_spec (P : Platform) :
    (∀ url, isValidGasUrl P url = true ↔
      ∃ u, P.parseURL url = some u ∧ u.scheme = "https" ∧
        ∃ pre : String, u.pathname = pre ++ "/exec") ∧
    (∀ url, P.parseURL url = none → isValidGasUrl P url = false) ∧
    (P.parseURL "https://x.com/exec" = some ⟨"https", "/exec"⟩ →
      isValidGasUrl P "https://x.com/exec" = true) ∧
    (P.parseURL "http://x.com/exec" = some ⟨"http", "/exec"⟩ →
      isValidGasUrl P "http://x.com/exec" = false) ∧
    (P.parseURL "https://x.com/exec/" = some ⟨"https", "/exec/"⟩ →
      isValidGasUrl P "https://x.com/exec/" = false) ∧
    (P.parseURL "not a url" = none → isValidGasUrl P "not a url" = false) := by
  refine ⟨isValidGasUrl_eq_true_iff P, ?_, ?_, ?_, ?_, ?_⟩
  · intro url h
    simp [isValidGasUrl, h]
  · intro h
    rw [isValidGasUrl_of_parse P _ _ h]
    decide
  · intro h
    rw [isValidGasUrl_of_parse P _ _ h]
    decide
  · intro h
    rw [isValidGasUrl_of_parse P _ _ h]
    decide
  · intro h
    simp [isValidGasUrl, h]

/-- C1 on the sample platform: the four sample strings. -/
theorem isValidGasUrl_spec_witness :
    isValidGasUrl samplePlatform "https://x.com/exec" = true ∧
    isValidGasUrl samplePlatform "http://x.com/exec" = false ∧
    isValidGasUrl samplePlatform "https://x.com/exec/" = false ∧
    isValidGasUrl samplePlatform "not a url" = false :=
  ⟨(isValidGasUrl_spec samplePlatform).2.2.1 (by decide),
   (isValidGasUrl_spec samplePlatform).2.2.2.1 (by decide),
   (isValidGasUrl_spec samplePlatform).2.2.2.2.1 (by decide),
   (isValidGasUrl_spec samplePlatform).2.2.2.2.2 (by decide)⟩

/-- C5: with `t` the trimmed input, `saveUrl` reports "Missing Web App URL"
(class `err`) and leaves storage alone when `t` is empty; reports
"Invalid URL (must end with /exec)" (class `err`) and leaves storage alone
when `t` is not a valid endpoint; otherwise stores exactly `t` under `gas_url`,
reports "Saved" (class `ok`) and leaves every other key as it was. -/
theorem saveUrl_spec (P : Platform) (w : World) (r : String) :
    (trim r = "" →
      (saveUrl P w r).status = ⟨"err", "Missing Web App URL"⟩ ∧
      (saveUrl P w r).storage = w.storage ∧
      (saveUrl P w r).setItemCalls = w.setItemCalls) ∧
    (trim r ≠ "" → isValidGasUrl P (trim r) = false →
      (saveUrl P w r).status = ⟨"err", "Invalid URL (must end with /exec)"⟩ ∧
      (saveUrl P w r).storage = w.storage ∧
      (saveUrl P w r).setItemCalls = w.setItemCalls) ∧
    (trim r ≠ "" → isValidGasUrl P (trim r) = true →
      (saveUrl P w r).status = ⟨"ok", "Saved"⟩ ∧
      getItem (saveUrl P w r).storage "gas_url" = some (trim r) ∧
      ∀ key, key ≠ "gas_url" →
        getItem (saveUrl P w r).storage key = getItem w.storage key) := by
  refine ⟨?_, ?_, ?_⟩
  · intro h
    simp [saveUrl, h, setStatus]
  · intro h hv
    simp [saveUrl, h, hv, setStatus]
  · intro h hv
    simp only [saveUrl, h, hv, setStatus, World.setItem]
    refine ⟨by simp, ?_, ?_⟩
    · simpa using getItem_setItem_same w.storage "gas_url" (trim r)
    · intro key hk
      simpa using getItem_setItem_other w.storage "gas_url" key (trim r) hk

/-- C5 at concrete inputs: an empty input, and `https://x.com/exec` saved over
a store that already holds an identifier. -/
theorem saveUrl_spec_witness :
    ((saveUrl samplePlatform ⟨[("uid", "a-b")], 1, ⟨"", ""⟩, 0, [], 1⟩ "   ").status =
        ⟨"err", "Missing Web App URL"⟩ ∧
      (saveUrl samplePlatform ⟨[("uid", "a-b")], 1, ⟨"", ""⟩, 0, [], 1⟩ "   ").storage =
        [("uid", "a-b")] ∧
      (saveUrl samplePlatform ⟨[("uid", "a-b")], 1, ⟨"", ""⟩, 0, [], 1⟩ "   ").setItemCalls = 1) ∧
    ((saveUrl samplePlatform ⟨[("uid", "a-b")], 1, ⟨"", ""⟩, 0, [], 1⟩
        " https://x.com/exec ").status = ⟨"ok", "Saved"⟩ ∧
      getItem (saveUrl samplePlatform ⟨[("uid", "a-b")], 1, ⟨"", ""⟩, 0, [], 1⟩
        " https://x.com/exec ").storage "gas_url" = some (trim " https://x.com/exec ") ∧
      ∀ key, key ≠ "gas_url" →
        getItem (saveUrl samplePlatform ⟨[("uid", "a-b")], 1, ⟨"", ""⟩, 0, [], 1⟩
          " https://x.com/exec ").storage key = getItem [("uid", "a-b")] key) :=
  ⟨(saveUrl_spec samplePlatform ⟨[("uid", "a-b")], 1, ⟨"", ""⟩, 0, [], 1⟩ "   ").1 (by decide),
   (saveUrl_spec samplePlatform ⟨[("uid", "a-b")], 1, ⟨"", ""⟩, 0, [], 1⟩
      " https://x.com/exec ").2.2 (by decide) (by decide)⟩

/-! ## Identity -/

theorem newUid_ne_empty (P : Platform) (rnd : RandomBytes) : newUid P rnd ≠ "" := by
  intro h
  have hd := congrArg String.data h
  simp [newUid] at hd

theorem getUid_of_stored (P : Platform) (w : World) (rnd : RandomBytes) (v : String)
    (h : getItem w.storage "uid" = some v) (hv : v ≠ "") : getUid P w rnd = (v, w) := by
  have hl : v.length > 0 := (length_pos_iff_ne_empty v).mpr hv
  simp [getUid, h, hl]

theorem getUid_generates (P : Platform) (w : World) (rnd : RandomBytes)
    (h : getItem w.storage "uid" = none ∨ getItem w.storage "uid" = some "") :
    getUid P w rnd =
      (newUid P rnd,
        { w with randomCalls := w.randomCalls + 1 }.setItem "uid" (newUid P rnd)) := by
  rcases h with h | h <;> simp [getUid, h]

theorem getUid_cases (P : Platform) (w : World) (rnd : RandomBytes) :
    getUid P w rnd = ((getUid P w rnd).1, w) ∨
    getUid P w rnd =
      (newUid P rnd,
        { w with randomCalls := w.randomCalls + 1 }.setItem "uid" (newUid P rnd)) := by
  cases h : getItem w.storage "uid" with
  | none => exact Or.inr (getUid_generates P w rnd (Or.inl h))
  | some v =>
    by_cases hv : v = ""
    · subst hv
      exact Or.inr (getUid_generates P w rnd (Or.inr h))
    · left
      rw [getUid_of_stored P w rnd v h hv]

theorem getUid_stores_result (P : Platform) (w : World) (rnd : RandomBytes) :
    getItem (getUid P w rnd).2.storage "uid" = some (getUid P w rnd).1 ∧
      (getUid P w rnd).1 ≠ "" := by
  cases h : getItem w.storage "uid" with
  | none =>
    rw [getUid_generates P w rnd (Or.inl h)]
    exact ⟨getItem_setItem_same _ _ _, newUid_ne_empty P rnd⟩
  | some v =>
    by_cases hv : v = ""
    · subst hv
      rw [getUid_generates P w rnd (Or.inr h)]
      exact ⟨getItem_setItem_same _ _ _, newUid_ne_empty P rnd⟩
    · rw [getUid_of_stored P w rnd v h hv]
      exact ⟨h, hv⟩

theorem getUid_keeps_other_keys (P : Platform) (w : World) (rnd : RandomBytes) (key : String)
    (hk : key ≠ "uid") : getItem (getUid P w rnd).2.storage key = getItem w.storage key := by
  rcases getUid_cases P w rnd with h | h
  · rw [h]
  · rw [h]
    exact getItem_setItem_other _ _ _ _ hk

/-- C6: two calls of `getUid` in a row return the same identifier, and the
second call changes nothing: storage, the count of `setItem` calls and the
count of random-source calls are those left by the first call, whatever bytes
the random source would have produced. -/
theorem getUid_idempotent (P : Platform) (w : World) (rnd rnd' : RandomBytes) :
    (getUid P (getUid P w rnd).2 rnd').1 = (getUid P w rnd).1 ∧
    (getUid P (getUid P w rnd).2 rnd').2 = (getUid P w rnd).2 := by
  obtain ⟨h1, h2⟩ := getUid_stores_result P w rnd
  rw [getUid_of_stored P _ rnd' _ h1 h2]
  exact ⟨rfl, rfl⟩

/-- C8, counterexample: with the empty string stored under `uid`, `getUid`
does not return the stored value: it calls the random source, returns a fresh
identifier and rewrites the key. -/
theorem getUid_empty_stored_regenerates :
    getItem (⟨[("uid", "")], 0, ⟨"", ""⟩, 0, [], 0⟩ : World).storage "uid" = some "" ∧
    (getUid samplePlatform ⟨[("uid", "")], 0, ⟨"", ""⟩, 0, [], 0⟩
      ⟨[0, 0, 0, 0, 0, 0, 0, 16, 0, 0, 0, 0, 0, 0, 0, 2], rfl⟩).1 = "1-2" ∧
    (getUid samplePlatform ⟨[("uid", "")], 0, ⟨"", ""⟩, 0, [], 0⟩
      ⟨[0, 0, 0, 0, 0, 0, 0, 16, 0, 0, 0, 0, 0, 0, 0, 2], rfl⟩).2 =
        ⟨[("uid", "1-2")], 1, ⟨"", ""⟩, 0, [], 1⟩ := by
  decide

/-- C8, amended: when a non-empty value is stored under `uid`, `getUid`
returns it and leaves the whole world as it was: storage is not written and
the random source is not called. -/
theorem getUid_returns_stored (P : Platform) (w : World) (rnd : RandomBytes) (v : String)
    (h : getItem w.storage "uid" = some v) (hv : v ≠ "") :
    (getUid P w rnd).1 = v ∧ (getUid P w rnd).2 = w := by
  rw [getUid_of_stored P w rnd v h hv]
  exact ⟨rfl, rfl⟩

/-- C8, amended, at a concrete store. -/
theorem getUid_returns_stored_witness :
    (getUid samplePlatform ⟨[("gas_url", "x"), ("uid", "a-b")], 2, ⟨"", ""⟩, 0, [], 1⟩
      ⟨[0, 0, 0, 0, 0, 0, 0, 16, 0, 0, 0, 0, 0, 0, 0, 2], rfl⟩).1 = "a-b" ∧
    (getUid samplePlatform ⟨[("gas_url", "x"), ("uid", "a-b")], 2, ⟨"", ""⟩, 0, [], 1⟩
      ⟨[0, 0, 0, 0, 0, 0, 0, 16, 0, 0, 0, 0, 0, 0, 0, 2], rfl⟩).2 =
        ⟨[("gas_url", "x"), ("uid", "a-b")], 2, ⟨"", ""⟩, 0, [], 1⟩ :=
  getUid_returns_stored samplePlatform _ _ "a-b" (by decide) (by decide)

/-! ## Sending: the two early returns -/

theorem sendLogSimple_missing (P : Platform) (w : World) (payload : Payload)
    (rnd : RandomBytes) (now : Int) (net : FetchOutcome)
    (h : getSavedGasUrl w = none ∨ getSavedGasUrl w = some "") :
    sendLogSimple P w payload rnd now net =
      (.fulfilled, setStatus w "Missing Web App URL" "err") := by
  rcases h with h | h <;> simp [sendLogSimple, h]

theorem sendLogSimple_invalid (P : Platform) (w : World) (payload : Payload)
    (rnd : RandomBytes) (now : Int) (net : FetchOutcome) (url : String)
    (h : getSavedGasUrl w = some url) (hne : url ≠ "") (hv : isValidGasUrl P url = false) :
    sendLogSimple P w payload rnd now net = (.fulfilled, setStatus w "Invalid URL" "err") := by
  simp [sendLogSimple, h, hne, hv]

/-- C2, counterexample: the empty string stored under `gas_url` is a saved
endpoint that is present and fails `isValidGasUrl`, yet the status is
"Missing Web App URL", not "Invalid URL". -/
theorem sendLogSimple_empty_endpoint_is_missing :
    getSavedGasUrl ⟨[("gas_url", "")], 1, ⟨"", ""⟩, 0, [], 0⟩ = some "" ∧
    isValidGasUrl samplePlatform "" = false ∧
    (sendLogSimple samplePlatform ⟨[("gas_url", "")], 1, ⟨"", ""⟩, 0, [], 0⟩
      ⟨"heartbeat", some "", none⟩
      ⟨[0, 0, 0, 0, 0, 0, 0, 16, 0, 0, 0, 0, 0, 0, 0, 2], rfl⟩ 0 (.response 200)).2.status =
        ⟨"err", "Missing Web App URL"⟩ := by
  decide

/-- C2, amended: when the saved endpoint is absent or is the empty string,
`sendLogSimple` sets "Missing Web App URL" (class `err`); when it is a
non-empty string that fails `isValidGasUrl`, it sets "Invalid URL" (class
`err`).  In both cases no request is issued, storage is not written, and the
promise is fulfilled. -/
theorem sendLogSimple_early_return (P : Platform) (w : World) (payload : Payload)
    (rnd : RandomBytes) (now : Int) (net : FetchOutcome) :
    ((getSavedGasUrl w = none ∨ getSavedGasUrl w = some "") →
      (sendLogSimple P w payload rnd now net).2.status = ⟨"err", "Missing Web App URL"⟩ ∧
      (sendLogSimple P w payload rnd now net).2.requests = w.requests ∧
      (sendLogSimple P w payload rnd now net).2.storage = w.storage ∧
      (sendLogSimple P w payload rnd now net).2.setItemCalls = w.setItemCalls ∧
      (sendLogSimple P w payload rnd now net).1 = .fulfilled) ∧
    (∀ url, getSavedGasUrl w = some url → url ≠ "" → isValidGasUrl P url = false →
      (sendLogSimple P w payload rnd now net).2.status = ⟨"err", "Invalid URL"⟩ ∧
      (sendLogSimple P w payload rnd now net).2.requests = w.requests ∧
      (sendLogSimple P w payload rnd now net).2.storage = w.storage ∧
      (sendLogSimple P w payload rnd now net).2.setItemCalls = w.setItemCalls ∧
      (sendLogSimple P w payload rnd now net).1 = .fulfilled) := by
  constructor
  · intro h
    rw [sendLogSimple_missing P w payload rnd now net h]
    simp [setStatus]
  · intro url h hne hv
    rw [sendLogSimple_invalid P w payload rnd now net url h hne hv]
    simp [setStatus]

/-- C2, amended, at concrete stores: no endpoint saved, and an `http` endpoint
saved. -/
theorem sendLogSimple_early_return_witness :
    (sendLogSimple samplePlatform ⟨[("uid", "a-b")], 1, ⟨"", ""⟩, 0, [], 1⟩
      ⟨"heartbeat", some "", none⟩
      ⟨[0, 0, 0, 0, 0, 0, 0, 16, 0, 0, 0, 0, 0, 0, 0, 2], rfl⟩ 0 (.response 200)).2.status =
        ⟨"err", "Missing Web App URL"⟩ ∧
    (sendLogSimple samplePlatform ⟨[("gas_url", "http://x.com/exec")], 1, ⟨"", ""⟩, 0, [], 0⟩
      ⟨"heartbeat", some "", none⟩
      ⟨[0, 0, 0, 0, 0, 0, 0, 16, 0, 0, 0, 0, 0, 0, 0, 2], rfl⟩ 0 (.response 200)).2.status =
        ⟨"err", "Invalid URL"⟩ :=
  ⟨((sendLogSimple_early_return samplePlatform ⟨[("uid", "a-b")], 1, ⟨"", ""⟩, 0, [], 1⟩
      ⟨"heartbeat", some "", none⟩
      ⟨[0, 0, 0, 0, 0, 0, 0, 16, 0, 0, 0, 0, 0, 0, 0, 2], rfl⟩ 0 (.response 200)).1
      (Or.inl (by decide))).1,
   ((sendLogSimple_early_return samplePlatform
      ⟨[("gas_url", "http://x.com/exec")], 1, ⟨"", ""⟩, 0, [], 0⟩
      ⟨"heartbeat", some "", none⟩
      ⟨[0, 0, 0, 0, 0, 0, 0, 16, 0, 0, 0, 0, 0, 0, 0, 2], rfl⟩ 0 (.response 200)).2
      "http://x.com/exec" (by decide) (by decide) (by decide)).1⟩

/-! ## Serialisation succeeds exactly without BigInt -/

mutual
theorem serializeJSONProperty_ok_iff (v : JsValue) :
    hasBigInt v = false ↔ ∃ t, serializeJSONProperty v = .ok t := by
  cases v with
  | undefined => simp [hasBigInt, serializeJSONProperty]
  | null => simp [hasBigInt, serializeJSONProperty]
  | boolean b => simp [hasBigInt, serializeJSONProperty]
  | number x => cases x <;> simp [hasBigInt, serializeJSONProperty]
  | string s => simp [hasBigInt, serializeJSONProperty]
  | bigint i => simp [hasBigInt, serializeJSONProperty]
  | symbol => simp [hasBigInt, serializeJSONProperty]
  | function => simp [hasBigInt, serializeJSONProperty]
  | array items =>
    have ih := serializeJSONArray_ok_iff items
    simp only [hasBigInt, serializeJSONProperty]
    rw [ih]
    constructor
    · rintro ⟨parts, h⟩
      simp [h]
    · rintro ⟨t, h⟩
      cases h2 : serializeJSONArray items with
      | error e => simp [h2] at h
      | ok parts => exact ⟨parts, rfl⟩
  | object props =>
    have ih := serializeJSONObject_ok_iff props
    simp only [hasBigInt, serializeJSONProperty]
    rw [ih]
    constructor
    · rintro ⟨parts, h⟩
      simp [h]
    · rintro ⟨t, h⟩
      cases h2 : serializeJSONObject props with
      | error e => simp [h2] at h
      | ok parts => exact ⟨parts, rfl⟩
theorem serializeJSONArray_ok_iff (vs : List JsValue) :
    anyBigInt vs = false ↔ ∃ parts, serializeJSONArray vs = .ok parts := by
  cases vs with
  | nil => simp [anyBigInt, serializeJSONArray]
  | cons v rest =>
    have ih1 := serializeJSONProperty_ok_iff v
    have ih2 := serializeJSONArray_ok_iff rest
    simp only [anyBigInt, serializeJSONArray, Bool.or_eq_false_iff]
    rw [ih1, ih2]
    constructor
    · rintro ⟨⟨t, h1⟩, ⟨parts, h2⟩⟩
      simp [h1, h2]
    · rintro ⟨parts, h⟩
      cases h1 : serializeJSONProperty v with
      | error e => simp [h1] at h
      | ok t =>
        cases h2 : serializeJSONArray rest with
        | error e => simp [h1, h2] at h
        | ok ps => exact ⟨⟨t, rfl⟩, ⟨ps, rfl⟩⟩
theorem serializeJSONObject_ok_iff (ps : List (String × JsValue)) :
    anyPropBigInt ps = false ↔ ∃ parts, serializeJSONObject ps = .ok parts := by
  cases ps with
  | nil => simp [anyPropBigInt, serializeJSONObject]
  | cons p rest =>
    obtain ⟨key, v⟩ := p
    have ih1 := serializeJSONProperty_ok_iff v
    have ih2 := serializeJSONObject_ok_iff rest
    simp only [anyPropBigInt, serializeJSONObject, Bool.or_eq_false_iff]
    rw [ih1, ih2]
    constructor
    · rintro ⟨⟨t, h1⟩, ⟨parts, h2⟩⟩
      cases t <;> simp [h1, h2]
    · rintro ⟨parts, h⟩
      cases h1 : serializeJSONProperty v with
      | error e => simp [h1] at h
      | ok t =>
        cases h2 : serializeJSONObject rest with
        | error e => cases t <;> simp [h1, h2] at h
        | ok ps => exact ⟨⟨t, rfl⟩, ⟨ps, rfl⟩⟩
end

theorem jsonStringify_object_error (props : List (String × JsValue))
    (h : anyPropBigInt props = true) :
    jsonStringify (.object props) = .error .typeError := by
  cases hp : serializeJSONObject props with
  | ok parts =>
    have := (serializeJSONObject_ok_iff props).mpr ⟨parts, hp⟩
    simp [this] at h
  | error e =>
    cases e
    simp [jsonStringify, serializeJSONProperty, hp]

/-! ## `JSON.stringify` produces JSON -/

theorem radixDigit_isJsonDigit (d : Nat) (h : d < 10) : isJsonDigit (radixDigit d) = true := by
  revert d
  decide

theorem radixDigit_isJsonOneNine (d : Nat) (h : d < 9) :
    isJsonOneNine (radixDigit (d + 1)) = true := by
  revert d
  decide

theorem toRadixCore_all (p : Char → Prop) (base : Nat) (hp : ∀ n, p (radixDigit (n % base))) :
    ∀ (fuel n : Nat) (acc : List Char), (∀ c ∈ acc, p c) →
      ∀ c ∈ toRadixCore base fuel n acc, p c := by
  intro fuel
  induction fuel with
  | zero =>
    intro n acc hacc
    simpa [toRadixCore] using hacc
  | succ fuel ih =>
    intro n acc hacc
    have hacc2 : ∀ c ∈ radixDigit (n % base) :: acc, p c := by
      intro c hc
      rcases List.mem_cons.mp hc with h | h
      · rw [h]
        exact hp n
      · exact hacc c h
    simp only [toRadixCore]
    split
    · exact hacc2
    · exact ih _ _ hacc2

theorem toRadixCore_ne_nil (base : Nat) :
    ∀ (fuel n : Nat) (acc : List Char), acc ≠ [] → toRadixCore base fuel n acc ≠ [] := by
  intro fuel
  induction fuel with
  | zero =>
    intro n acc hacc
    simpa [toRadixCore] using hacc
  | succ fuel ih =>
    intro n acc _
    simp only [toRadixCore]
    split
    · simp
    · exact ih _ _ (by simp)

theorem toRadix_ne_nil (base n : Nat) : toRadix base n ≠ [] := by
  unfold toRadix
  simp only [toRadixCore]
  split
  · simp
  · exact toRadixCore_ne_nil _ _ _ _ (by simp)

theorem toRadix_ten_digits (n : Nat) : JsonDigits (toRadix 10 n) := by
  refine ⟨toRadix_ne_nil 10 n, ?_⟩
  apply toRadixCore_all (fun c => isJsonDigit c = true) 10
  · intro m
    exact radixDigit_isJsonDigit _ (Nat.mod_lt _ (by decide))
  · simp

theorem isJsonDigit_of_oneNine (c : Char) (h : isJsonOneNine c = true) :
    isJsonDigit c = true := by
  simp only [isJsonOneNine, isJsonDigit, Bool.and_eq_true, decide_eq_true_eq] at *
  omega

theorem isJsonDigit_zero : isJsonDigit '0' = true := by decide

theorem jsonNumber_of_parts (negative : Bool) (d : Char) (ds f e : List Char)
    (hd : isJsonDigit d = true)
    (hds : ds = [] ∨ (isJsonOneNine d = true ∧ JsonDigits ds))
    (hf : JsonFraction f) (he : JsonExponent e) :
    JsonNumber ((if negative then ['-'] else []) ++ (d :: ds ++ f ++ e)) := by
  cases negative with
  | false =>
    rcases hds with h | ⟨h1, h2⟩
    · subst h
      simpa using JsonNumber.mk _ _ _ (JsonInteger.digit d hd) hf he
    · simpa using JsonNumber.mk _ _ _ (JsonInteger.digits d ds h1 h2) hf he
  | true =>
    rcases hds with h | ⟨h1, h2⟩
    · subst h
      simpa using JsonNumber.mk _ _ _ (JsonInteger.negDigit d hd) hf he
    · simpa using JsonNumber.mk _ _ _ (JsonInteger.negDigits d ds h1 h2) hf he

theorem jsonDigits_append (a b : List Char) (ha : ∀ c ∈ a, isJsonDigit c = true)
    (hb : ∀ c ∈ b, isJsonDigit c = true) (hne : a ++ b ≠ []) : JsonDigits (a ++ b) := by
  refine ⟨hne, ?_⟩
  intro c hc
  rcases List.mem_append.mp hc with h | h
  · exact ha c h
  · exact hb c h

theorem replicate_zero_digits (m : Nat) : ∀ c ∈ List.replicate m '0', isJsonDigit c = true := by
  intro c hc
  rw [(List.mem_replicate.mp hc).2]
  decide

theorem numberToString_finite_json (negative : Bool) (lead : Fin 9) (rest : List (Fin 10))
    (n : Int) : JsonNumber (numberToString (.finite negative lead rest n)) := by
  have hd0 : isJsonOneNine (radixDigit (lead.val + 1)) = true :=
    radixDigit_isJsonOneNine _ lead.isLt
  have hd0' := isJsonDigit_of_oneNine _ hd0
  have hrs : ∀ c ∈ rest.map (fun d => radixDigit d.val), isJsonDigit c = true := by
    intro c hc
    obtain ⟨d, _, rfl⟩ := List.mem_map.mp hc
    exact radixDigit_isJsonDigit _ d.isLt
  generalize hd0e : radixDigit (lead.val + 1) = d0 at hd0 hd0'
  generalize hrse : rest.map (fun d => radixDigit d.val) = rs at hrs
  have key : ∀ text : List Char, (∃ d ds f e, text = d :: ds ++ f ++ e ∧ isJsonDigit d = true ∧
      (ds = [] ∨ (isJsonOneNine d = true ∧ JsonDigits ds)) ∧ JsonFraction f ∧ JsonExponent e) →
      JsonNumber (if negative then '-' :: text else text) := by
    rintro text ⟨d, ds, f, e, rfl, h0, h1, h2, h3⟩
    have := jsonNumber_of_parts negative d ds f e h0 h1 h2 h3
    cases negative <;> simpa using this
  have hall : ∀ c ∈ d0 :: rs, isJsonDigit c = true := by
    intro c hc
    rcases List.mem_cons.mp hc with h | h
    · rw [h]
      exact hd0'
    · exact hrs c h
  simp only [numberToString, hd0e, hrse]
  apply key
  simp only [List.length_cons]
  split
  · -- digits followed by zeros
    refine ⟨d0, rs ++ List.replicate (n - (↑(rs.length + 1) : Int)).toNat '0', [], [], by simp,
      hd0', ?_, JsonFraction.none, JsonExponent.none⟩
    by_cases hne : rs ++ List.replicate (n - (↑(rs.length + 1) : Int)).toNat '0' = []
    · exact Or.inl hne
    · exact Or.inr ⟨hd0, jsonDigits_append _ _ hrs (replicate_zero_digits _) hne⟩
  · rename_i hA
    split
    · -- a decimal point inside the digits
      rename_i hB
      obtain ⟨m, hm⟩ : ∃ m : Nat, n.toNat = m + 1 := ⟨n.toNat - 1, by omega⟩
      have hlt : m < rs.length := by omega
      refine ⟨d0, rs.take m, '.' :: rs.drop m, [], by simp [hm], hd0', ?_, ?_,
        JsonExponent.none⟩
      · by_cases hne : rs.take m = []
        · exact Or.inl hne
        · exact Or.inr ⟨hd0, hne, fun c hc => hrs c (List.mem_of_mem_take hc)⟩
      · refine JsonFraction.digits _ ⟨?_, fun c hc => hrs c (List.mem_of_mem_drop hc)⟩
        intro h
        have := congrArg List.length h
        simp at this
        omega
    · split
      · -- zero, point, zeros, digits
        refine ⟨'0', [], '.' :: (List.replicate (-n).toNat '0' ++ d0 :: rs), [], by simp,
          isJsonDigit_zero, Or.inl rfl, ?_, JsonExponent.none⟩
        exact JsonFraction.digits _
          (jsonDigits_append _ _ (replicate_zero_digits _) hall (by simp))
      · -- exponent form
        have hexp : JsonExponent
            ('e' :: [if n < 0 then '-' else '+'] ++ toRadix 10 (n - 1).natAbs) := by
          refine JsonExponent.lower _ _ ?_ (toRadix_ten_digits _)
          split
          · exact JsonSign.minus
          · exact JsonSign.plus
        split
        · rename_i hk
          have hnil : rs = [] := by
            have : rs.length = 0 := by omega
            exact List.length_eq_zero.mp this
          subst hnil
          exact ⟨d0, [], [], _, by simp, hd0', Or.inl rfl, JsonFraction.none, hexp⟩
        · rename_i hk
          have hne : rs ≠ [] := by
            intro h
            subst h
            simp at hk
          exact ⟨d0, [], '.' :: rs, _, by simp, hd0', Or.inl rfl,
            JsonFraction.digits _ ⟨hne, hrs⟩, hexp⟩

theorem numberToString_zero_json (negative : Bool) :
    JsonNumber (numberToString (.zero negative)) := by
  simpa [numberToString] using
    JsonNumber.mk _ _ _ (JsonInteger.digit '0' isJsonDigit_zero) JsonFraction.none
      JsonExponent.none

/-! ### Strings -/

theorem unicodeEscape_hex (n : Nat) (h : n < 32) :
    (padStart 4 '0' (toRadix 16 n)).length = 4 ∧
      (padStart 4 '0' (toRadix 16 n)).all isJsonHex = true := by
  revert n
  decide

theorem quoteJSONChar_characters (c : Char) (cs : List Char) (h : JsonCharacters cs) :
    JsonCharacters (quoteJSONChar c ++ cs) := by
  unfold quoteJSONChar
  split
  · exact JsonCharacters.escape 'b' cs (by simp) h
  split
  · exact JsonCharacters.escape 't' cs (by simp) h
  split
  · exact JsonCharacters.escape 'n' cs (by simp) h
  split
  · exact JsonCharacters.escape 'f' cs (by simp) h
  split
  · exact JsonCharacters.escape 'r' cs (by simp) h
  split
  · exact JsonCharacters.escape '"' cs (by simp) h
  split
  · exact JsonCharacters.escape '\\' cs (by simp) h
  rename_i hq hb
  split
  · rename_i hlt
    obtain ⟨hlen, hall⟩ := unicodeEscape_hex c.toNat hlt
    generalize padStart 4 '0' (toRadix 16 c.toNat) = l at hlen hall
    match l, hlen, hall with
    | [a, b, c, d], _, hall =>
      simp only [List.all_cons, List.all_nil, Bool.and_true, Bool.and_eq_true] at hall
      exact JsonCharacters.unicode a b c d cs hall.1 hall.2.1 hall.2.2.1 hall.2.2.2 h
  · rename_i hge
    exact JsonCharacters.char c cs (by omega) hq hb h

theorem flatMap_quoteJSONChar_characters (cs : List Char) :
    JsonCharacters (cs.flatMap quoteJSONChar) := by
  induction cs with
  | nil => exact JsonCharacters.nil
  | cons c cs ih =>
    rw [List.flatMap_cons]
    exact quoteJSONChar_characters c _ ih

theorem quoteJSONString_json (s : String) : JsonString (quoteJSONString s) :=
  JsonString.mk _ (flatMap_quoteJSONChar_characters s.data)

/-! ### Values -/

theorem jsonWs_nil : JsonWs [] := by
  intro c hc
  simp at hc

theorem jsonElement_of_value (v : List Char) (h : JsonValue v) : JsonElement v := by
  simpa using JsonElement.mk [] v [] jsonWs_nil h jsonWs_nil

theorem jsonMember_of_parts (k e : List Char) (hk : JsonString k) (he : JsonValue e) :
    JsonMember (k ++ ':' :: e) := by
  simpa using JsonMember.mk [] k [] e jsonWs_nil hk jsonWs_nil (jsonElement_of_value e he)

theorem joinComma_elements (parts : List (List Char)) (hne : parts ≠ [])
    (h : ∀ p ∈ parts, JsonValue p) : JsonElements (joinComma parts) := by
  induction parts with
  | nil => exact absurd rfl hne
  | cons x rest ih =>
    cases rest with
    | nil => exact JsonElements.one x (jsonElement_of_value x (h x (by simp)))
    | cons y rest =>
      simp only [joinComma]
      exact JsonElements.more x _ (jsonElement_of_value x (h x (by simp)))
        (ih (by simp) (fun p hp => h p (List.mem_cons_of_mem _ hp)))

theorem joinComma_members (parts : List (List Char)) (hne : parts ≠ [])
    (h : ∀ p ∈ parts, JsonMember p) : JsonMembers (joinComma parts) := by
  induction parts with
  | nil => exact absurd rfl hne
  | cons x rest ih =>
    cases rest with
    | nil => exact JsonMembers.one x (h x (by simp))
    | cons y rest =>
      simp only [joinComma]
      exact JsonMembers.more x _ (h x (by simp))
        (ih (by simp) (fun p hp => h p (List.mem_cons_of_mem _ hp)))

theorem jsonValue_array (parts : List (List Char)) (h : ∀ p ∈ parts, JsonValue p) :
    JsonValue ('[' :: joinComma parts ++ [']']) := by
  cases parts with
  | nil => exact JsonValue.emptyArray [] jsonWs_nil
  | cons x rest => exact JsonValue.array _ (joinComma_elements _ (by simp) h)

theorem jsonValue_object (parts : List (List Char)) (h : ∀ p ∈ parts, JsonMember p) :
    JsonValue ('\x7b' :: joinComma parts ++ ['\x7d']) := by
  cases parts with
  | nil => exact JsonValue.emptyObject [] jsonWs_nil
  | cons x rest => exact JsonValue.object _ (joinComma_members _ (by simp) h)

mutual
theorem serializeJSONProperty_json (v : JsValue) (t : List Char)
    (h : serializeJSONProperty v = .ok (some t)) : JsonValue t := by
  cases v with
  | undefined => simp [serializeJSONProperty] at h
  | symbol => simp [serializeJSONProperty] at h
  | function => simp [serializeJSONProperty] at h
  | bigint i => simp [serializeJSONProperty] at h
  | null =>
    simp only [serializeJSONProperty, Except.ok.injEq, Option.some.injEq] at h
    subst h
    exact JsonValue.litNull
  | boolean b =>
    simp only [serializeJSONProperty, Except.ok.injEq, Option.some.injEq] at h
    subst h
    cases b
    · exact JsonValue.litFalse
    · exact JsonValue.litTrue
  | string s =>
    simp only [serializeJSONProperty, Except.ok.injEq, Option.some.injEq] at h
    subst h
    exact JsonValue.string _ (quoteJSONString_json s)
  | number x =>
    cases x with
    | nan =>
      simp only [serializeJSONProperty, Except.ok.injEq, Option.some.injEq] at h
      subst h
      exact JsonValue.litNull
    | infinity negative =>
      simp only [serializeJSONProperty, Except.ok.injEq, Option.some.injEq] at h
      subst h
      exact JsonValue.litNull
    | zero negative =>
      simp only [serializeJSONProperty, Except.ok.injEq, Option.some.injEq] at h
      subst h
      exact JsonValue.number _ (numberToString_zero_json negative)
    | finite negative lead rest n =>
      simp only [serializeJSONProperty, Except.ok.injEq, Option.some.injEq] at h
      subst h
      exact JsonValue.number _ (numberToString_finite_json negative lead rest n)
  | array items =>
    cases hp : serializeJSONArray items with
    | error e => simp [serializeJSONProperty, hp] at h
    | ok parts =>
      simp only [serializeJSONProperty, hp, Except.ok.injEq, Option.some.injEq] at h
      subst h
      exact jsonValue_array parts (serializeJSONArray_json items parts hp)
  | object props =>
    cases hp : serializeJSONObject props with
    | error e => simp [serializeJSONProperty, hp] at h
    | ok parts =>
      simp only [serializeJSONProperty, hp, Except.ok.injEq, Option.some.injEq] at h
      subst h
      exact jsonValue_object parts (serializeJSONObject_json props parts hp)
theorem serializeJSONArray_json (vs : List JsValue) (parts : List (List Char))
    (h : serializeJSONArray vs = .ok parts) : ∀ p ∈ parts, JsonValue p := by
  cases vs with
  | nil =>
    simp only [serializeJSONArray, Except.ok.injEq] at h
    subst h
    simp
  | cons v rest =>
    cases h1 : serializeJSONProperty v with
    | error e => simp [serializeJSONArray, h1] at h
    | ok t =>
      cases h2 : serializeJSONArray rest with
      | error e => simp [serializeJSONArray, h1, h2] at h
      | ok ps =>
        simp only [serializeJSONArray, h1, h2, Except.ok.injEq] at h
        subst h
        intro p hp
        rcases List.mem_cons.mp hp with hp | hp
        · subst hp
          cases t with
          | none => exact JsonValue.litNull
          | some t => exact serializeJSONProperty_json v t h1
        · exact serializeJSONArray_json rest ps h2 p hp
theorem serializeJSONObject_json (props : List (String × JsValue)) (parts : List (List Char))
    (h : serializeJSONObject props = .ok parts) : ∀ p ∈ parts, JsonMember p := by
  cases props with
  | nil =>
    simp only [serializeJSONObject, Except.ok.injEq] at h
    subst h
    simp
  | cons kv rest =>
    obtain ⟨key, v⟩ := kv
    cases h1 : serializeJSONProperty v with
    | error e => simp [serializeJSONObject, h1] at h
    | ok t =>
      cases t with
      | none =>
        simp only [serializeJSONObject, h1] at h
        exact serializeJSONObject_json rest parts h
      | some t =>
        cases h2 : serializeJSONObject rest with
        | error e => simp [serializeJSONObject, h1, h2] at h
        | ok ps =>
          simp only [serializeJSONObject, h1, h2, Except.ok.injEq] at h
          subst h
          intro p hp
          rcases List.mem_cons.mp hp with hp | hp
          · subst hp
            exact jsonMember_of_parts _ _ (quoteJSONString_json key)
              (serializeJSONProperty_json v t h1)
          · exact serializeJSONObject_json rest ps h2 p hp
end

theorem jsonValue_head (v : List Char) (h : JsonValue v) :
    ∃ c rest, v = c :: rest ∧
      (c ∈ ['\x7b', '[', '"', '-', 't', 'f', 'n'] ∨ isJsonDigit c = true) := by
  cases h with
  | emptyObject ws _ => exact ⟨_, _, rfl, Or.inl (by simp)⟩
  | object ms _ => exact ⟨_, _, rfl, Or.inl (by simp)⟩
  | emptyArray ws _ => exact ⟨_, _, rfl, Or.inl (by simp)⟩
  | array es _ => exact ⟨_, _, rfl, Or.inl (by simp)⟩
  | string _ hs =>
    cases hs with
    | mk cs _ => exact ⟨_, _, rfl, Or.inl (by simp)⟩
  | number _ hn =>
    cases hn with
    | mk i f e hi _ _ =>
      cases hi with
      | digit d hd => exact ⟨d, _, rfl, Or.inr hd⟩
      | digits d ds hd _ => exact ⟨d, _, rfl, Or.inr (isJsonDigit_of_oneNine d hd)⟩
      | negDigit d _ => exact ⟨'-', _, rfl, Or.inl (by simp)⟩
      | negDigits d ds _ _ => exact ⟨'-', _, rfl, Or.inl (by simp)⟩
  | litTrue => exact ⟨_, _, rfl, Or.inl (by simp)⟩
  | litFalse => exact ⟨_, _, rfl, Or.inl (by simp)⟩
  | litNull => exact ⟨_, _, rfl, Or.inl (by simp)⟩

theorem jsonElement_head (s : List Char) (h : JsonElement s) :
    ∃ c rest, s = c :: rest ∧
      (c ∈ [' ', '\n', '\r', '\t', '\x7b', '[', '"', '-', 't', 'f', 'n'] ∨
        isJsonDigit c = true) := by
  cases h with
  | mk a v b ha hv hb =>
    cases a with
    | nil =>
      obtain ⟨c, rest, rfl, hc⟩ := jsonValue_head v hv
      refine ⟨c, rest ++ b, by simp, ?_⟩
      rcases hc with hc | hc
      · left
        simp only [List.mem_cons, List.mem_singleton, List.not_mem_nil, or_false] at hc ⊢
        tauto
      · exact Or.inr hc
    | cons c a =>
      refine ⟨c, a ++ v ++ b, by simp, Or.inl ?_⟩
      have := ha c (by simp)
      simp only [List.mem_cons, List.mem_singleton, List.not_mem_nil, or_false]
      tauto

/-- The text `undefined`, which `String(undefined)` gives, is not JSON. -/
theorem not_jsonText_undefined : ¬ IsJsonText "undefined" := by
  intro h
  obtain ⟨c, rest, hs, hc⟩ := jsonElement_head _ h
  have hcu : c = 'u' := by
    have := congrArg List.head? hs
    simpa using this.symm
  subst hcu
  rcases hc with hc | hc
  · revert hc
    decide
  · revert hc
    decide

/-! ## Sending with a valid endpoint saved -/

theorem valid_ne_empty (P : Platform) (url : String) (hv : isValidGasUrl P url = true) :
    url ≠ "" := by
  intro h
  subst h
  simp [isValidGasUrl_empty] at hv

theorem sendLogSimple_valid (P : Platform) (w : World) (payload : Payload)
    (rnd : RandomBytes) (now : Int) (net : FetchOutcome) (url : String)
    (h : getSavedGasUrl w = some url) (hv : isValidGasUrl P url = true) :
    sendLogSimple P w payload rnd now net =
      match jsonStringify (.object (payload.meta.getD [])) with
      | .error e => (.rejected e, (getUid P w rnd).2)
      | .ok text =>
        (.fulfilled,
          setStatus
            { (getUid P w rnd).2 with
              requests := (getUid P w rnd).2.requests ++
                [⟨url, "POST", [],
                  [("event", P.toLowerCase payload.event), ("variant", payload.variant.getD ""),
                    ("userId", (getUid P w rnd).1), ("ts", toString now),
                    ("meta", text.getD "undefined")]⟩] }
            (match net with
              | .failure => "Network error"
              | .response status =>
                if FetchOutcome.responseOk status then "Logged" else "HTTP " ++ toString status)
            (match net with
              | .failure => "err"
              | .response status => if FetchOutcome.responseOk status then "ok" else "err")) := by
  have hne := valid_ne_empty P url hv
  simp only [sendLogSimple, h, hne, hv, if_false, Bool.not_true]
  cases jsonStringify (.object (payload.meta.getD [])) with
  | error e => rfl
  | ok text =>
    cases net with
    | failure => simp [paramsSet]
    | response status =>
      cases hs : FetchOutcome.responseOk status <;> simp [hs, paramsSet]

theorem sendLogSimple_storage (P : Platform) (w : World) (payload : Payload)
    (rnd : RandomBytes) (now : Int) (net : FetchOutcome) :
    (sendLogSimple P w payload rnd now net).2.storage = w.storage ∨
      (sendLogSimple P w payload rnd now net).2.storage = (getUid P w rnd).2.storage := by
  cases h : getSavedGasUrl w with
  | none =>
    rw [sendLogSimple_missing P w payload rnd now net (Or.inl h)]
    exact Or.inl rfl
  | some url =>
    by_cases hne : url = ""
    · subst hne
      rw [sendLogSimple_missing P w payload rnd now net (Or.inr h)]
      exact Or.inl rfl
    · cases hv : isValidGasUrl P url with
      | false =>
        rw [sendLogSimple_invalid P w payload rnd now net url h hne hv]
        exact Or.inl rfl
      | true =>
        rw [sendLogSimple_valid P w payload rnd now net url h hv]
        cases jsonStringify (.object (payload.meta.getD [])) <;> exact Or.inr rfl

theorem getUid_keeps_endpoint (P : Platform) (w : World) (rnd : RandomBytes) :
    getSavedGasUrl (getUid P w rnd).2 = getSavedGasUrl w :=
  getUid_keeps_other_keys P w rnd "gas_url" (by decide)

theorem sendLogSimple_keeps_endpoint (P : Platform) (w : World) (payload : Payload)
    (rnd : RandomBytes) (now : Int) (net : FetchOutcome) :
    getSavedGasUrl (sendLogSimple P w payload rnd now net).2 = getSavedGasUrl w := by
  rcases sendLogSimple_storage P w payload rnd now net with h | h
  · simp only [getSavedGasUrl, h]
  · simp only [getSavedGasUrl, h]
    exact getUid_keeps_endpoint P w rnd

theorem saveUrl_endpoint (P : Platform) (w : World) (inputValue : String) :
    getSavedGasUrl (saveUrl P w inputValue) = getSavedGasUrl w ∨
      (getSavedGasUrl (saveUrl P w inputValue) = some (trim inputValue) ∧
        isValidGasUrl P (trim inputValue) = true) := by
  unfold saveUrl
  by_cases h : trim inputValue = ""
  · simp [h, setStatus, getSavedGasUrl]
  · cases hv : isValidGasUrl P (trim inputValue) with
    | false => simp [h, hv, setStatus, getSavedGasUrl]
    | true =>
      right
      simp only [h, hv, if_false, Bool.not_true, setStatus, World.setItem, getSavedGasUrl]
      exact ⟨by simpa using getItem_setItem_same w.storage "gas_url" (trim inputValue), trivial⟩

theorem step_keeps_endpointOk (P : Platform) (w : World) (op : Op)
    (h : storedEndpointOk P w = true) : storedEndpointOk P (step P w op) = true := by
  cases op with
  | save inputValue =>
    rcases saveUrl_endpoint P w inputValue with h1 | ⟨h1, h2⟩
    · simpa [storedEndpointOk, step, h1] using h
    · simp [storedEndpointOk, step, h1, h2]
  | send payload rnd now net =>
    simpa [storedEndpointOk, step, sendLogSimple_keeps_endpoint] using h
  | uid rnd =>
    simpa [storedEndpointOk, step, getUid_keeps_endpoint] using h

theorem run_keeps_endpointOk (P : Platform) (ops : List Op) :
    ∀ w : World, storedEndpointOk P w = true → storedEndpointOk P (run P w ops) = true := by
  induction ops with
  | nil =>
    intro w h
    exact h
  | cons op rest ih =>
    intro w h
    exact ih (step P w op) (step_keeps_endpointOk P w op h)

/-- C10: if the stored endpoint is absent or valid, it is still absent or valid
after any finite sequence of `saveUrl`, `sendLogSimple` and `getUid` calls with
arbitrary inputs, random bytes, clock values and network outcomes; and
`sendLogSimple` and `getUid` never change the value stored under `gas_url`. -/
theorem storedEndpoint_invariant (P : Platform) (w : World) (ops : List Op)
    (h : storedEndpointOk P w = true) :
    storedEndpointOk P (run P w ops) = true ∧
    (∀ (w' : World) (payload : Payload) (rnd : RandomBytes) (now : Int) (net : FetchOutcome),
      getSavedGasUrl (sendLogSimple P w' payload rnd now net).2 = getSavedGasUrl w') ∧
    (∀ (w' : World) (rnd : RandomBytes),
      getSavedGasUrl (getUid P w' rnd).2 = getSavedGasUrl w') :=
  ⟨run_keeps_endpointOk P ops w h, sendLogSimple_keeps_endpoint P, getUid_keeps_endpoint P⟩

/-- C10 at a concrete run: an identifier is made, a bad URL is refused, a good
one is saved, an event is sent. -/
theorem storedEndpoint_invariant_witness :
    storedEndpointOk samplePlatform
      (run samplePlatform ⟨[], 0, ⟨"", ""⟩, 0, [], 0⟩
        [.uid sampleBytes, .save "http://x.com/exec", .save " https://x.com/exec",
          .send samplePayload sampleBytes 5 (.response 200)]) = true :=
  (storedEndpoint_invariant samplePlatform ⟨[], 0, ⟨"", ""⟩, 0, [], 0⟩
    [.uid sampleBytes, .save "http://x.com/exec", .save " https://x.com/exec",
      .send samplePayload sampleBytes 5 (.response 200)] (by decide)).1

/-! ## The identifier's digits -/

/-- C7, at two failing inputs: the random outputs `80 00 00 00 00 00 00 10 00 ..`
and `80 00 00 00 00 00 00 00 00 ..` have first fifteen hex digits of values
`2 ^ 59 + 1` and `2 ^ 59`, whose base-36 texts differ, yet `parseInt` returns
`2 ^ 59` for both and `getUid` generates the same identifier for both,
whatever digits the implementation prints above `2 ^ 53`. -/
theorem newUid_loses_low_bits (P : Platform) :
    hexOfBytes [0x80, 0, 0, 0, 0, 0, 0, 0x10, 0, 0, 0, 0, 0, 0, 0, 0] =
      "80000000000000100000000000000000" ∧
    hexMathInt 0 "800000000000001".data = 2 ^ 59 + 1 ∧
    parseInt16 "800000000000001" = .int false (2 ^ 59) ∧
    parseInt16 "800000000000000" = .int false (2 ^ 59) ∧
    toRadix 36 (2 ^ 59 + 1) ≠ toRadix 36 (2 ^ 59) ∧
    newUid P ⟨[0x80, 0, 0, 0, 0, 0, 0, 0x10, 0, 0, 0, 0, 0, 0, 0, 0], rfl⟩ =
      newUid P ⟨[0x80, 0, 0, 0, 0, 0, 0, 0, 0, 0, 0, 0, 0, 0, 0, 0], rfl⟩ ∧
    (getUid P ⟨[], 0, ⟨"", ""⟩, 0, [], 0⟩
        ⟨[0x80, 0, 0, 0, 0, 0, 0, 0x10, 0, 0, 0, 0, 0, 0, 0, 0], rfl⟩).1 =
      (getUid P ⟨[], 0, ⟨"", ""⟩, 0, [], 0⟩
        ⟨[0x80, 0, 0, 0, 0, 0, 0, 0, 0, 0, 0, 0, 0, 0, 0, 0], rfl⟩).1 :=
  ⟨by decide, by decide, by decide, by decide, by decide, rfl, rfl⟩

/-! ## The shape of a generated identifier -/

theorem radixDigit_base36 (d : Nat) (h : d < 36) : isBase36Char (radixDigit d) = true := by
  revert d
  decide

theorem toRadix_base36 (n : Nat) : isBase36Text (toRadix 36 n) = true := by
  have hne := toRadix_ne_nil 36 n
  have hall : ∀ c ∈ toRadix 36 n, isBase36Char c = true := by
    apply toRadixCore_all (fun c => isBase36Char c = true) 36
    · intro m
      exact radixDigit_base36 _ (Nat.mod_lt _ (by decide))
    · simp
  simp only [isBase36Text, Bool.and_eq_true, Bool.not_eq_true', List.isEmpty_eq_false,
    List.all_eq_true]
  exact ⟨by simpa using hne, hall⟩

theorem bitLengthCore_le (fuel : Nat) :
    ∀ n k : Nat, n < 2 ^ k → bitLengthCore fuel n ≤ k := by
  induction fuel with
  | zero =>
    intro n k _
    simp [bitLengthCore]
  | succ fuel ih =>
    intro n k h
    simp only [bitLengthCore]
    split
    · exact Nat.zero_le _
    · rename_i hn
      cases k with
      | zero =>
        simp at h
        exact absurd h hn
      | succ k =>
        have h2 : n / 2 < 2 ^ k := by
          apply Nat.div_lt_of_lt_mul
          rw [Nat.pow_succ] at h
          omega
        exact Nat.succ_le_succ (ih _ _ h2)

theorem roundToDouble_isSome (n : Nat) (h : n < 2 ^ 68) : ∃ m, roundToDouble n = some m := by
  unfold roundToDouble
  split
  · exact ⟨n, rfl⟩
  · have hL : bitLength n ≤ 68 := bitLengthCore_le n n 68 h
    have he : bitLength n - 53 ≤ 15 := by omega
    generalize bitLength n - 53 = e at he
    dsimp only
    generalize hq : (if n % 2 ^ e < 2 ^ (e - 1) then n / 2 ^ e
      else if 2 ^ (e - 1) < n % 2 ^ e then n / 2 ^ e + 1
      else if n / 2 ^ e % 2 = 0 then n / 2 ^ e else n / 2 ^ e + 1) = q
    have hdiv : n / 2 ^ e ≤ n := Nat.div_le_self _ _
    have hqle : q ≤ 2 ^ 68 := by
      rw [← hq]
      split
      · omega
      · split
        · omega
        · split <;> omega
    have hpow : 2 ^ e ≤ 2 ^ 15 := Nat.pow_le_pow_right (by decide) he
    have hprod : q * 2 ^ e < 2 ^ 84 :=
      calc q * 2 ^ e ≤ 2 ^ 68 * 2 ^ 15 := Nat.mul_le_mul hqle hpow
        _ < 2 ^ 84 := by norm_num
    have hb : bitLength (q * 2 ^ e) ≤ 84 := bitLengthCore_le _ _ 84 hprod
    rw [if_pos (by omega)]
    exact ⟨_, rfl⟩

theorem hexValue_le (c : Char) : (hexValue c).getD 0 ≤ 15 := by
  unfold hexValue
  dsimp only
  split
  · simp only [Option.getD_some]
    omega
  · split
    · simp only [Option.getD_some]
      omega
    · split
      · simp only [Option.getD_some]
        omega
      · simp

theorem hexMathInt_lt (l : List Char) :
    ∀ acc : Nat, hexMathInt acc l < (acc + 1) * 16 ^ l.length := by
  induction l with
  | nil =>
    intro acc
    simp [hexMathInt]
  | cons c cs ih =>
    intro acc
    simp only [hexMathInt, List.length_cons]
    have h1 := ih (16 * acc + (hexValue c).getD 0)
    have h2 := hexValue_le c
    calc hexMathInt (16 * acc + (hexValue c).getD 0) cs
        < (16 * acc + (hexValue c).getD 0 + 1) * 16 ^ cs.length := h1
      _ ≤ (16 * (acc + 1)) * 16 ^ cs.length := Nat.mul_le_mul_right _ (by omega)
      _ = (acc + 1) * 16 ^ (cs.length + 1) := by ring

theorem byteHex_shape (b : Fin 256) :
    (byteHex b).length = 2 ∧ (byteHex b).all isLowerHex = true := by
  revert b
  set_option maxRecDepth 100000 in decide


theorem lowerHex_not_space (c : Char) (h : isLowerHex c = true) : isJsWhiteSpace c = false := by
  simp only [isLowerHex, Bool.or_eq_true, Bool.and_eq_true, decide_eq_true_eq] at h
  simp only [isJsWhiteSpace, Bool.or_eq_false_iff, Bool.and_eq_false_imp, decide_eq_false_iff_not,
    decide_eq_true_eq]
  omega

theorem lowerHex_hexValue (c : Char) (h : isLowerHex c = true) : (hexValue c).isSome = true := by
  simp only [isLowerHex, Bool.or_eq_true, Bool.and_eq_true, decide_eq_true_eq] at h
  unfold hexValue
  dsimp only
  split
  · rfl
  · split
    · rfl
    · omega

theorem lowerHex_ne (c d : Char) (h : isLowerHex c = true) (hd : isLowerHex d = false) :
    c ≠ d := by
  intro hcd
  rw [hcd, hd] at h
  exact Bool.noConfusion h

theorem parseInt16_lowerHex (c : Char) (cs : List Char)
    (hall : ∀ x ∈ c :: cs, isLowerHex x = true) (hlen : (c :: cs).length ≤ 17) :
    ∃ m, parseInt16 (String.mk (c :: cs)) = .int false m := by
  have hc := hall c (by simp)
  have hws := lowerHex_not_space c hc
  have hminus : c ≠ '-' := lowerHex_ne c '-' hc (by decide)
  have hplus : c ≠ '+' := lowerHex_ne c '+' hc (by decide)
  have hz : (c :: cs).takeWhile (fun x => (hexValue x).isSome) = c :: cs :=
    List.takeWhile_eq_self_iff.mpr (fun x hx => lowerHex_hexValue x (hall x hx))
  have hval : hexMathInt 0 (c :: cs) < 2 ^ 68 := by
    have h1 := hexMathInt_lt (c :: cs) 0
    have h2 : 16 ^ (c :: cs).length ≤ 16 ^ 17 := Nat.pow_le_pow_right (by decide) hlen
    have h3 : (16 : Nat) ^ 17 = 2 ^ 68 := by norm_num
    omega
  obtain ⟨m, hm⟩ := roundToDouble_isSome _ hval
  refine ⟨m, ?_⟩
  have hprefix : (match c :: cs with
      | '0' :: 'x' :: rest => rest
      | '0' :: 'X' :: rest => rest
      | _ => c :: cs) = c :: cs := by
    split
    · rename_i rest heq
      have hx := hall 'x' (by rw [heq]; simp)
      exact absurd hx (by decide)
    · rename_i rest heq
      have hx := hall 'X' (by rw [heq]; simp)
      exact absurd hx (by decide)
    · rfl
  unfold parseInt16
  simp only [List.dropWhile_cons_of_neg (Bool.not_eq_true _ ▸ hws), List.head?_cons,
    Option.some.injEq, hminus, hplus, or_self, if_false, hprefix, hz, hm]
  simp


theorem flatMap_byteHex_shape (bs : List (Fin 256)) :
    (bs.flatMap byteHex).length = 2 * bs.length ∧
      ∀ x ∈ bs.flatMap byteHex, isLowerHex x = true := by
  induction bs with
  | nil => simp
  | cons b rest ih =>
    obtain ⟨h1, h2⟩ := byteHex_shape b
    rw [List.flatMap_cons]
    refine ⟨by simp [h1, ih.1]; omega, ?_⟩
    intro x hx
    rcases List.mem_append.mp hx with h | h
    · exact List.all_eq_true.mp h2 x h
    · exact ih.2 x h

theorem parseInt16_hex_slice (l : List Char) (hall : ∀ x ∈ l, isLowerHex x = true)
    (hne : l ≠ []) (hlen : l.length ≤ 17) : ∃ m, parseInt16 (String.mk l) = .int false m := by
  cases l with
  | nil => exact absurd rfl hne
  | cons c cs => exact parseInt16_lowerHex c cs hall hlen

theorem toString36_base36 (P : Platform)
    (hP : ∀ m, 2 ^ 53 ≤ m → isBase36Text (P.radix36Large m).data = true) (m : Nat) :
    isBase36Text (toString36 P (.int false m)).data = true := by
  simp only [toString36, Bool.false_eq_true, false_and, if_false]
  split
  · exact toRadix_base36 m
  · exact hP m (by omega)

theorem matchesUidPattern_of_parts (a b : String) (ha : isBase36Text a.data = true)
    (hb : isBase36Text b.data = true) : matchesUidPattern (a ++ "-" ++ b) = true := by
  have hall : ∀ c ∈ a.data, (c != '-') = true := by
    intro c hc
    simp only [isBase36Text, Bool.and_eq_true, List.all_eq_true] at ha
    have h := ha.2 c hc
    simp only [bne_iff_ne, ne_eq]
    intro hcd
    rw [hcd] at h
    exact absurd h (by decide)
  have hd : (a ++ "-" ++ b).data = a.data ++ '-' :: b.data := by
    simp [String.data_append]
  unfold matchesUidPattern
  rw [hd, List.dropWhile_append_of_pos hall, List.takeWhile_append_of_pos hall]
  simp [ha, hb]

/-- The identifier `getUid` generates matches `^[0-9a-z]+-[0-9a-z]+$`, on a
platform whose `toString(36)` prints digits and lower-case letters above
`2 ^ 53` as it does below. -/
theorem newUid_matches_pattern (P : Platform)
    (hP : ∀ m, 2 ^ 53 ≤ m → isBase36Text (P.radix36Large m).data = true) (rnd : RandomBytes) :
    matchesUidPattern (newUid P rnd) = true := by
  obtain ⟨hlen, hall⟩ := flatMap_byteHex_shape rnd.val
  rw [rnd.property] at hlen
  have h1 : ∃ m, parseInt16 (String.mk ((hexOfBytes rnd.val).data.take 15)) = .int false m := by
    apply parseInt16_hex_slice
    · exact fun x hx => hall x (List.mem_of_mem_take hx)
    · intro h
      have := congrArg List.length h
      simp [hexOfBytes, hlen] at this
    · simp [hexOfBytes, hlen]
  have h2 : ∃ m, parseInt16 (String.mk ((hexOfBytes rnd.val).data.drop 15)) = .int false m := by
    apply parseInt16_hex_slice
    · exact fun x hx => hall x (List.mem_of_mem_drop hx)
    · intro h
      have := congrArg List.length h
      simp [hexOfBytes, hlen] at this
    · simp [hexOfBytes, hlen]
  obtain ⟨m1, h1⟩ := h1
  obtain ⟨m2, h2⟩ := h2
  unfold newUid
  dsimp only
  rw [h1, h2]
  exact matchesUidPattern_of_parts _ _ (toString36_base36 P hP m1) (toString36_base36 P hP m2)

/-! ## Checks on the number model -/

theorem digitValue_radixDigit (d : Nat) (h : d < 36) : digitValue (radixDigit d) = d := by
  revert d
  decide

theorem radixValue_toRadixCore (base : Nat) (hb : 2 ≤ base) (hb' : base ≤ 36) (fuel : Nat) :
    ∀ (n : Nat) (acc : List Char), n < fuel →
      radixValue base 0 (toRadixCore base fuel n acc) = radixValue base n acc := by
  induction fuel with
  | zero =>
    intro n acc h
    exact absurd h (Nat.not_lt_zero _)
  | succ fuel ih =>
    intro n acc h
    have hmod : n % base < 36 := Nat.lt_of_lt_of_le (Nat.mod_lt _ (by omega)) hb'
    have hd := digitValue_radixDigit _ hmod
    simp only [toRadixCore]
    split
    · rename_i hdiv
      have hlt : n < base := by
        by_contra hge
        have : 0 < n / base := Nat.div_pos (by omega) (by omega)
        omega
      simp only [radixValue, List.foldl_cons, Nat.mul_zero, Nat.zero_add]
      rw [hd, Nat.mod_eq_of_lt hlt]
    · rename_i hdiv
      have hlt : n / base < fuel := by
        have : n / base < n := Nat.div_lt_self (by
          by_contra h0
          have : n = 0 := by omega
          subst this
          simp at hdiv) (by omega)
        omega
      rw [ih _ _ hlt]
      simp only [radixValue, List.foldl_cons, Nat.mul_zero, Nat.zero_add]
      rw [hd, Nat.div_add_mod]

/-- The digits of `toRadix` denote the number: the fuel never runs out. -/
theorem radixValue_toRadix (base n : Nat) (hb : 2 ≤ base) (hb' : base ≤ 36) :
    radixValue base 0 (toRadix base n) = n := by
  unfold toRadix
  rw [radixValue_toRadixCore base hb hb' (n + 1) n [] (Nat.lt_succ_self n)]
  rfl

theorem bitLengthCore_zero (fuel : Nat) : bitLengthCore fuel 0 = 0 := by
  cases fuel <;> simp [bitLengthCore]

theorem bitLengthCore_bounds (fuel : Nat) :
    ∀ n : Nat, n ≤ fuel → n < 2 ^ bitLengthCore fuel n ∧
      (n ≠ 0 → 2 ^ (bitLengthCore fuel n - 1) ≤ n) := by
  induction fuel with
  | zero =>
    intro n h
    have : n = 0 := by omega
    subst this
    simp [bitLengthCore]
  | succ fuel ih =>
    intro n h
    by_cases hn : n = 0
    · subst hn
      simp [bitLengthCore]
    · have hhalf : n / 2 ≤ fuel := by omega
      obtain ⟨h1, h2⟩ := ih (n / 2) hhalf
      simp only [bitLengthCore, hn, if_false, Nat.add_sub_cancel]
      refine ⟨?_, fun _ => ?_⟩
      · rw [Nat.pow_succ]
        omega
      · by_cases h0 : n / 2 = 0
        · rw [h0, bitLengthCore_zero]
          simp
          omega
        · have h3 := h2 h0
          have hpos : bitLengthCore fuel (n / 2) ≠ 0 := by
            intro hz
            rw [hz] at h1
            simp at h1
            exact h0 h1
          obtain ⟨k, hk⟩ := Nat.exists_eq_succ_of_ne_zero hpos
          rw [hk] at h3 ⊢
          simp only [Nat.succ_sub_one] at h3
          rw [Nat.pow_succ]
          omega

/-- `bitLength n` is the number of binary digits of `n`. -/
theorem bitLength_bounds (n : Nat) (hn : n ≠ 0) :
    2 ^ (bitLength n - 1) ≤ n ∧ n < 2 ^ bitLength n :=
  ⟨(bitLengthCore_bounds n n (Nat.le_refl n)).2 hn, (bitLengthCore_bounds n n (Nat.le_refl n)).1⟩


/-- Above `2 ^ 53`, `roundToDouble n` is a 53-bit significand times the power
of two that the size of `n` fixes, and it lies within half of that power of
`n`: it is a nearest Number. -/
theorem roundToDouble_nearest (n m : Nat) (hn : 2 ^ 53 ≤ n) (h : roundToDouble n = some m) :
    ∃ q, m = q * 2 ^ (bitLength n - 53) ∧ 2 ^ 52 ≤ q ∧ q ≤ 2 ^ 53 ∧
      2 * n ≤ 2 * m + 2 ^ (bitLength n - 53) ∧ 2 * m ≤ 2 * n + 2 ^ (bitLength n - 53) := by
  have hn0 : n ≠ 0 := by
    have : 0 < 2 ^ 53 := Nat.pos_pow_of_pos 53 (by decide)
    omega
  obtain ⟨hlo, hhi⟩ := bitLength_bounds n hn0
  have hL : 54 ≤ bitLength n := by
    by_contra hlt
    have h1 : bitLength n ≤ 53 := by omega
    have h2 : 2 ^ bitLength n ≤ 2 ^ 53 := Nat.pow_le_pow_right (by decide) h1
    omega
  obtain ⟨e, he⟩ : ∃ e, bitLength n = e + 54 := ⟨bitLength n - 54, by omega⟩
  have he53 : bitLength n - 53 = e + 1 := by omega
  have he1 : bitLength n - 1 = e + 53 := by omega
  rw [he53]
  rw [he1] at hlo
  rw [he] at hhi
  have hp : 2 ^ (e + 1) = 2 * 2 ^ e := by rw [Nat.pow_succ]; omega
  have hp53 : 2 ^ (e + 53) = 2 ^ 52 * (2 * 2 ^ e) := by
    rw [show e + 53 = 52 + (e + 1) by omega, Nat.pow_add, hp]
  have hp54 : 2 ^ (e + 54) = 2 ^ 53 * (2 * 2 ^ e) := by
    rw [show e + 54 = 53 + (e + 1) by omega, Nat.pow_add, hp]
  have hpos : 0 < 2 ^ e := Nat.pos_pow_of_pos e (by decide)
  unfold roundToDouble at h
  rw [if_neg (by omega), he53] at h
  dsimp only at h
  rw [hp] at h ⊢
  simp only [Nat.add_sub_cancel] at h
  generalize hP : 2 ^ e = p at *
  have hq0hi : n / (2 * p) < 2 ^ 53 := by
    apply Nat.div_lt_of_lt_mul
    rw [hp54] at hhi
    rw [Nat.mul_comm]
    exact hhi
  have hq0lo : 2 ^ 52 ≤ n / (2 * p) := by
    rw [Nat.le_div_iff_mul_le (by omega)]
    rw [hp53] at hlo
    exact hlo
  have hdm := Nat.div_add_mod n (2 * p)
  have hmod : n % (2 * p) < 2 * p := Nat.mod_lt _ (by omega)
  generalize hq0 : n / (2 * p) = q0 at *
  generalize hr : n % (2 * p) = r at *
  have hmul : (2 * p) * q0 = q0 * (2 * p) := Nat.mul_comm _ _
  have hsucc : (q0 + 1) * (2 * p) = q0 * (2 * p) + 2 * p := Nat.succ_mul _ _
  generalize hX : q0 * (2 * p) = X at *
  split at h
  · rename_i hlt
    split at h
    · simp only [Option.some.injEq] at h
      exact ⟨q0, by omega, hq0lo, by omega, by omega, by omega⟩
    · exact absurd h (by simp)
  · rename_i hge
    split at h
    · rename_i hgt
      split at h
      · simp only [Option.some.injEq] at h
        exact ⟨q0 + 1, by omega, by omega, by omega, by omega, by omega⟩
      · exact absurd h (by simp)
    · rename_i hngt
      split at h
      · split at h
        · simp only [Option.some.injEq] at h
          exact ⟨q0, by omega, hq0lo, by omega, by omega, by omega⟩
        · exact absurd h (by simp)
      · split at h
        · simp only [Option.some.injEq] at h
          exact ⟨q0 + 1, by omega, by omega, by omega, by omega, by omega⟩
        · exact absurd h (by simp)

end App
